import Mathlib

/-!
# Dashboard client (`app/static/app.js`)

A shallow embedding of the browser-side presentation layer: text formatting
(`escapeHtml`, `truncate`, `formatDate`, `formatDayGroup`, `formatTimeAgo`,
`formatNotifBody`), the day grouping and the markup built by `loadProfiles`
and `loadPosts`, and the small asynchronous workflows (`markRead`,
`markAllRead`, `uploadCsv`).

Conventions of the embedding.

* A JavaScript string is a Lean `String`, a sequence of code points.
  Where the source counts or cuts by UTF-16 code units (`length`,
  `substring`, `charAt`), the string is taken as the list of its code units
  (`toUtf16`); a cut may leave half of a surrogate pair, which is read back
  (`ofUtf16`) as U+FFFD, the way it is displayed.  A value that may be
  `null`/`undefined` is an `Option`.
* A time value is an `Int`, the milliseconds since the epoch.  The time
  values of a `Date` are integral doubles, and in their range the double
  arithmetic of the source (`-`, `/` followed by `Math.floor`) is the
  integer arithmetic used here.  `/` on `Int` rounds down for the positive
  divisors that occur.
* The host environment (current time, time zone, outcome of a request) is
  an explicit parameter.  Dates are formatted as the `en-US` locale does
  for years of the common era.
-/

namespace Dashboard

/-! ## JavaScript values -/

/-- Falsiness of a possibly absent string: `null`, `undefined` and `''`. -/
def falsy (str : Option String) : Bool :=
  match str with
  | none => true
  | some s => s.data.isEmpty

/-- The expression `a || b` where `a` is a possibly absent string. -/
def orElse (a : Option String) (b : String) : String :=
  match a with
  | none => b
  | some s => if s.data.isEmpty then b else s

/-! ## escapeHtml and truncate -/

/-- Serialisation of one character of a text node by `innerHTML`
(the "escaping a string" step of HTML fragment serialisation, outside
attribute mode): `&`, `<`, `>` and U+00A0 are replaced, the rest is kept. -/
def escapeChar (c : Char) : List Char :=
  if c = '&' then "&amp;".data
  else if c = '<' then "&lt;".data
  else if c = '>' then "&gt;".data
  else if c = Char.ofNat 160 then "&nbsp;".data
  else [c]

/-- `escapeHtml(str)`: a falsy argument gives `''`; otherwise the text is
assigned to `textContent` of a fresh `div` and its `innerHTML` is read back. -/
def escapeHtml (str : Option String) : String :=
  match str with
  | none => ""
  | some s => if s.data.isEmpty then "" else ⟨s.data.flatMap escapeChar⟩

/-- A JavaScript string as the sequence of its UTF-16 code units, each a
number below 65536. -/
abbrev CodeUnits := List Nat

/-- The UTF-16 encoding of one code point: itself below 65536, a high and a
low surrogate otherwise. -/
def utf16Units (c : Char) : List Nat :=
  if c.toNat < 65536 then [c.toNat]
  else [55296 + (c.toNat - 65536) / 1024, 56320 + (c.toNat - 65536) % 1024]

/-- The code units of a string. -/
def toUtf16 (s : String) : CodeUnits := s.data.flatMap utf16Units

/-- The character of one code unit that is not part of a pair; a surrogate
on its own reads as U+FFFD. -/
def unitChar (u : Nat) : Char :=
  if 55296 ≤ u ∧ u < 57344 then Char.ofNat 65533 else Char.ofNat u

/-- The code points of a sequence of code units: a high surrogate followed by
a low one is one code point. -/
def charsOfUtf16 : CodeUnits → List Char
  | [] => []
  | [u] => [unitChar u]
  | hi :: lo :: rest =>
    if 55296 ≤ hi ∧ hi < 56320 ∧ 56320 ≤ lo ∧ lo < 57344 then
      Char.ofNat (65536 + (hi - 55296) * 1024 + (lo - 56320)) :: charsOfUtf16 rest
    else unitChar hi :: charsOfUtf16 (lo :: rest)

/-- The string of a sequence of code units. -/
def ofUtf16 (units : CodeUnits) : String := ⟨charsOfUtf16 units⟩

/-- `truncate(str, len)` on the code units of `str`: `str.length` is their
number and `str.substring(0, len)` the first `len` of them. -/
def truncate (str : Option CodeUnits) (len : Nat) : CodeUnits :=
  match str with
  | none => []
  | some s =>
    if s.isEmpty then []
    else if s.length > len then s.take len ++ toUtf16 "..." else s

/-! ## Dates -/

/-- A timestamp field of a record (`post_timestamp`, `created_at`) as the
formatters see it: falsy (absent or `''`), a non-empty string that
`new Date` cannot parse (time value `NaN`), or a string that parses to the
time value `ms`. -/
inductive Timestamp where
  | missing
  | invalid
  | time (ms : Int)
  deriving DecidableEq, Repr

/-- The expression `a || b` on timestamp fields. -/
def Timestamp.orElse (a b : Timestamp) : Timestamp :=
  match a with
  | .missing => b
  | _ => a

/-- The client's time zone: `localTZA t true` is the offset in milliseconds
in force at the UTC time value `t`, `localTZA t false` the offset for the
local wall-clock value `t` (ECMAScript `LocalTZA`). -/
structure TimeZone where
  localTZA : Int → Bool → Int

/-- A zone with a constant offset from UTC. -/
def fixedZone (offsetMs : Int) : TimeZone := ⟨fun _ _ => offsetMs⟩

/-- ECMAScript `LocalTime(t)`. -/
def LocalTime (z : TimeZone) (t : Int) : Int := t + z.localTZA t true

/-- ECMAScript `UTC(t)`. -/
def UTC (z : TimeZone) (t : Int) : Int := t - z.localTZA t false

/-- ECMAScript `msPerDay`. -/
def msPerDay : Int := 86400000

/-- ECMAScript `Day(t)`. -/
def Day (t : Int) : Int := t / msPerDay

/-- ECMAScript `WeekDay(t)`, 0 = Sunday. -/
def WeekDay (t : Int) : Int := (Day t + 4) % 7

/-- Year, month (0-11) and day of the month (1-31) of the day number `n`
(days since 1970-01-01) in the proleptic Gregorian calendar: ECMAScript
`YearFromTime`, `MonthFromTime`, `DateFromTime`. -/
def civilFromDays (n : Int) : Int × Int × Int :=
  let z := n + 719468
  let era := z / 146097
  let doe := z - era * 146097
  let yoe := (doe - doe / 1460 + doe / 36524 - doe / 146096) / 365
  let doy := doe - (365 * yoe + yoe / 4 - yoe / 100)
  let mp := (5 * doy + 2) / 153
  let d := doy - (153 * mp + 2) / 5 + 1
  let m := if mp < 10 then mp + 3 else mp - 9
  let y := yoe + era * 400
  (if m ≤ 2 then y + 1 else y, m - 1, d)

/-- ECMAScript `MakeDay(year, month, date)` for a month in 0-11: the day
number of the given calendar date. -/
def MakeDay (year month date : Int) : Int :=
  let m := month + 1
  let y := if m ≤ 2 then year - 1 else year
  let era := y / 400
  let yoe := y - era * 400
  let doy := (153 * (if m > 2 then m - 3 else m + 9) + 2) / 5 + date - 1
  let doe := yoe * 365 + yoe / 4 - yoe / 100 + doy
  era * 146097 + doe - 719468

/-- The getters `getFullYear()`, `getMonth()`, `getDate()` of a valid date. -/
def localYMD (z : TimeZone) (t : Int) : Int × Int × Int :=
  civilFromDays (Day (LocalTime z t))

/-- The constructor call `new Date(year, month, date)`: local midnight of
that calendar day as a time value.  A year in 0-99 is read as 1900 + year. -/
def newDateYMD (z : TimeZone) (ymd : Int × Int × Int) : Int :=
  let yr := if 0 ≤ ymd.1 ∧ ymd.1 ≤ 99 then 1900 + ymd.1 else ymd.1
  UTC z (MakeDay yr ymd.2.1 ymd.2.2 * msPerDay)

/-- The `en-US` weekday names, indexed by `WeekDay`. -/
def weekdayLong (w : Int) : String :=
  ["Sunday", "Monday", "Tuesday", "Wednesday", "Thursday", "Friday", "Saturday"].getD
    w.toNat ""

/-- The `en-US` month names, indexed by the month 0-11. -/
def monthLong (m : Int) : String :=
  ["January", "February", "March", "April", "May", "June", "July", "August",
    "September", "October", "November", "December"].getD m.toNat ""

/-- The `en-US` abbreviated month names, indexed by the month 0-11. -/
def monthShort (m : Int) : String :=
  ["Jan", "Feb", "Mar", "Apr", "May", "Jun", "Jul", "Aug", "Sep", "Oct", "Nov",
    "Dec"].getD m.toNat ""

/-- The call `d.toLocaleDateString('en-US', { month: 'short', day: 'numeric' })`
on a valid date: `Mon D`. -/
def toLocaleMonthDay (z : TimeZone) (t : Int) : String :=
  let ymd := localYMD z t
  monthShort ymd.2.1 ++ " " ++ toString ymd.2.2.toNat

/-- The call `d.toLocaleDateString('en-US', { month: 'short', day: 'numeric',
year: 'numeric' })` on a valid date: `Mon D, YYYY`. -/
def toLocaleShortDate (z : TimeZone) (t : Int) : String :=
  let ymd := localYMD z t
  monthShort ymd.2.1 ++ " " ++ toString ymd.2.2.toNat ++ ", " ++ toString ymd.1

/-- The call `d.toLocaleDateString('en-US', { weekday: 'long' })` on a valid
date. -/
def toLocaleWeekday (z : TimeZone) (t : Int) : String :=
  weekdayLong (WeekDay (LocalTime z t))

/-- The call `d.toLocaleDateString('en-US', { weekday: 'long', month: 'long',
day: 'numeric', year: 'numeric' })` on a valid date:
`Weekday, Month D, YYYY`. -/
def toLocaleFullDate (z : TimeZone) (t : Int) : String :=
  let ymd := localYMD z t
  weekdayLong (WeekDay (LocalTime z t)) ++ ", " ++ monthLong ymd.2.1 ++ " " ++
    toString ymd.2.2.toNat ++ ", " ++ toString ymd.1

/-- `formatDate(dateStr)`. -/
def formatDate (z : TimeZone) (dateStr : Timestamp) : String :=
  match dateStr with
  | .missing => ""
  | .invalid => "Invalid Date"
  | .time t => toLocaleShortDate z t

/-- `formatDayGroup(dateStr)` evaluated at the current time `now`.  With an
unparseable string every getter is `NaN`, no comparison succeeds and the
last line formats an invalid date. -/
def formatDayGroup (z : TimeZone) (now : Int) (dateStr : Timestamp) : String :=
  match dateStr with
  | .missing => "Unknown Date"
  | .invalid => "Invalid Date"
  | .time t =>
    let today := newDateYMD z (localYMD z now)
    let postDay := newDateYMD z (localYMD z t)
    let diffDays := (today - postDay) / 86400000
    if diffDays = 0 then "Today"
    else if diffDays = 1 then "Yesterday"
    else if diffDays < 7 then toLocaleWeekday z t
    else toLocaleFullDate z t

/-- `formatTimeAgo(dateStr)` evaluated at the current time `now`. -/
def formatTimeAgo (z : TimeZone) (now : Int) (dateStr : Timestamp) : String :=
  match dateStr with
  | .missing => ""
  | .invalid => "Invalid Date"
  | .time t =>
    let diffMs := now - t
    let diffMins := diffMs / 60000
    let diffHrs := diffMs / 3600000
    let diffDays := diffMs / 86400000
    if diffMins < 1 then "just now"
    else if diffMins < 60 then toString diffMins ++ "m ago"
    else if diffHrs < 24 then toString diffHrs ++ "h ago"
    else if diffDays < 7 then toString diffDays ++ "d ago"
    else toLocaleMonthDay z t


/-- A zone with daylight saving time: US Eastern time around the change of
2024-03-10, UTC-5 before 07:00 UTC (02:00 local) of that day and UTC-4
from then on. -/
def usEastern2024 : TimeZone :=
  ⟨fun t isUTC =>
    if isUTC then (if t < 1710054000000 then -18000000 else -14400000)
    else (if t < 1710036000000 then -18000000 else -14400000)⟩

/-! ## Character classes and case mapping -/

/-- The class `\s` of a JavaScript regular expression. -/
def isSpace (c : Char) : Bool :=
  let n := c.toNat
  (9 ≤ n && n ≤ 13) || n = 32 || n = 160 || n = 5760 || (8192 ≤ n && n ≤ 8202) ||
    n = 8232 || n = 8233 || n = 8239 || n = 8287 || n = 12288 || n = 65279

/-- `toLowerCase()`, letters of the ASCII range; other characters are kept. -/
def toLowerCase (s : String) : String := ⟨s.data.map Char.toLower⟩

/-- `toUpperCase()`, letters of the ASCII range; other characters are kept. -/
def toUpperCase (s : String) : String := ⟨s.data.map Char.toUpper⟩

/-- `charAt(0)`: the first code unit as a string, `''` on the empty string. -/
def charAt0 (s : String) : String := ofUtf16 ((toUtf16 s).take 1)

/-- Replacement of every maximal run of `\s` characters by one `-`; the flag
says that the previous character belonged to a run already replaced. -/
def dashRuns : Bool → List Char → List Char
  | _, [] => []
  | inRun, c :: cs =>
    if isSpace c then (if inRun then dashRuns true cs else '-' :: dashRuns true cs)
    else c :: dashRuns false cs

/-- `s.replace(/\s+/g, '-')`. -/
def replaceSpaceRuns (s : String) : String := ⟨dashRuns false s.data⟩

/-- `haystack.includes(needle)` on character lists. -/
def includesChars (needle : List Char) : List Char → Bool
  | [] => needle.isEmpty
  | c :: cs => needle.isPrefixOf (c :: cs) || includesChars needle cs

/-! ## Records -/

structure Profile where
  id : Nat
  name : Option String
  linkedin_url : Option String
  type : String
  created_at : Timestamp
  deriving DecidableEq, Repr

structure Post where
  id : Nat
  profile_id : Nat
  post_text : Option String
  summary : Option String
  category : Option String
  suggested_reply : Option String
  post_url : Option String
  post_timestamp : Timestamp
  created_at : Timestamp
  deriving DecidableEq, Repr

structure Notification where
  id : Nat
  title : Option String
  body : Option String
  is_read : Bool
  created_at : Timestamp
  deriving DecidableEq, Repr

/-! ## Plain objects used as dictionaries -/

/-- The own properties of an object created by `{}`, in insertion order. -/
abbrev Dict (κ : Type) (α : Type) := List (κ × α)

/-- The own property `o[k]`, if there is one. -/
def Dict.get? {κ α : Type} [DecidableEq κ] : Dict κ α → κ → Option α
  | [], _ => none
  | (k', v) :: rest, k => if k' = k then some v else Dict.get? rest k

/-- The assignment `o[k] = v`: an existing property keeps its place, a new
one goes last. -/
def Dict.set {κ α : Type} [DecidableEq κ] : Dict κ α → κ → α → Dict κ α
  | [], k, v => [(k, v)]
  | (k', v') :: rest, k, v =>
    if k' = k then (k, v) :: rest else (k', v') :: Dict.set rest k v

/-- The property names every object created by `{}` inherits from
`Object.prototype`; reading one of them gives a truthy value that is not an
array. -/
def objectPrototypeKeys : List String :=
  ["constructor", "toString", "toLocaleString", "valueOf", "hasOwnProperty",
    "isPrototypeOf", "propertyIsEnumerable", "__proto__", "__defineGetter__",
    "__defineSetter__", "__lookupGetter__", "__lookupSetter__"]

/-- The decimal digits `0`-`9`. -/
def isDigitChar (c : Char) : Bool := decide (48 ≤ c.toNat) && decide (c.toNat ≤ 57)

/-- The value of a string of decimal digits. -/
def digitsValue (cs : List Char) : Nat :=
  cs.foldl (fun n c => 10 * n + (c.toNat - 48)) 0

/-- Array-index property names (canonical decimal numerals below 2^32 - 1):
the own-property order of an object lists these first, in ascending numeric
order. -/
def isArrayIndex (s : String) : Bool :=
  match s.data with
  | [] => false
  | c :: cs =>
    (c :: cs).all isDigitChar && (c != '0' || cs.isEmpty) &&
      decide (digitsValue (c :: cs) < 2 ^ 32 - 1)

/-- `Object.entries(o)`: array-index keys in ascending numeric order, then
the other string keys in insertion order. -/
def Dict.entries {α : Type} (o : Dict String α) : List (String × α) :=
  (o.filter (fun e => isArrayIndex e.1)).insertionSort
      (fun a b => digitsValue a.1.data ≤ digitsValue b.1.data) ++
    o.filter (fun e => !isArrayIndex e.1)

/-! ## Day grouping -/

/-- One iteration of the `forEach` that fills `grouped`; `key` computes
`dateStr`.  For a name inherited from `Object.prototype` the test
`!grouped[dateStr]` fails, no array is stored and `.push` raises a
`TypeError` (`none`). -/
def groupStep {α : Type} (key : α → String) (grouped : Dict String (List α)) (r : α) :
    Option (Dict String (List α)) :=
  let dateStr := key r
  if dateStr ∈ objectPrototypeKeys then none
  else
    let grouped1 :=
      if (grouped.get? dateStr).isNone then grouped.set dateStr [] else grouped
    some (grouped1.set dateStr ((grouped1.get? dateStr).getD [] ++ [r]))

/-- The grouping loop followed by `Object.entries(grouped)`. -/
def groupByDay {α : Type} (key : α → String) (records : List α) :
    Option (List (String × List α)) :=
  (records.foldlM (groupStep key) []).map Dict.entries

/-- The `dateStr` of a post in `loadPosts`. -/
def postDayLabel (z : TimeZone) (now : Int) (post : Post) : String :=
  formatDayGroup z now (post.post_timestamp.orElse post.created_at)

/-- The `dateStr` of a notification in `loadNotifications`. -/
def notifDayLabel (z : TimeZone) (now : Int) (n : Notification) : String :=
  formatDayGroup z now n.created_at

/-- The groups `loadPosts` iterates over. -/
def postGroups (z : TimeZone) (now : Int) (posts : List Post) :
    Option (List (String × List Post)) :=
  groupByDay (postDayLabel z now) posts

/-- The groups `loadNotifications` iterates over. -/
def notifGroups (z : TimeZone) (now : Int) (notifs : List Notification) :
    Option (List (String × List Notification)) :=
  groupByDay (notifDayLabel z now) notifs

/-- The labels of a list, each once, in order of first appearance. -/
def firstOccurrences : List String → List String
  | [] => []
  | x :: xs => x :: (firstOccurrences xs).filter (fun y => y ≠ x)

/-- Reference grouping, as the contract words it: one group per label, in
order of first appearance, holding the records with that label in input
order. -/
def referenceGroups {α : Type} (key : α → String) (records : List α) :
    List (String × List α) :=
  (firstOccurrences (records.map key)).map
    (fun l => (l, records.filter (fun r => key r = l)))

/-- The effect of one `groupStep` on a label that is not inherited: the
record joins the group of its label, or opens a new last group. -/
def addTo {α : Type} (grouped : Dict String (List α)) (k : String) (r : α) :
    Dict String (List α) :=
  match grouped.get? k with
  | some rs => grouped.set k (rs ++ [r])
  | none => grouped ++ [(k, [r])]

/-- The string starts with a letter `A`-`Z`. -/
def startsUpper (s : String) : Bool :=
  match s.data with
  | [] => false
  | c :: _ => decide (65 ≤ c.toNat) && decide (c.toNat ≤ 90)

/-! ## Rendering of profiles -/

/-- The template literal mapped over `profiles` in `loadProfiles`. -/
def profileCard (z : TimeZone) (p : Profile) : String :=
  "\n            <div class=\"profile-card\">\n                <div class=\"profile-card-header\">\n                    <div class=\"profile-name\">"
    ++ escapeHtml p.name
    ++ "</div>\n                    <span class=\"profile-type "
    ++ p.type
    ++ "\">"
    ++ p.type
    ++ "</span>\n                </div>\n                <a href=\""
    ++ escapeHtml p.linkedin_url
    ++ "\" target=\"_blank\" class=\"profile-url\">"
    ++ escapeHtml p.linkedin_url
    ++ "</a>\n                <div class=\"profile-meta\">\n                    <span>Added "
    ++ formatDate z p.created_at
    ++ "</span>\n                    <button class=\"btn btn-danger\" onclick=\"deleteProfile("
    ++ toString p.id
    ++ ", '"
    ++ escapeHtml p.name
    ++ "')\">Delete</button>\n                </div>\n            </div>\n        "

/-- `array.join('')`. -/
def joinAll (parts : List String) : String := String.join parts

/-- The markup `loadProfiles` stores in `container.innerHTML`; `none` stands
for a failed request or an unparseable response. -/
def loadProfiles (z : TimeZone) (response : Option (List Profile)) : String :=
  match response with
  | none => "<p class=\"loading\">Failed to load profiles.</p>"
  | some [] =>
    "\n                <div class=\"empty-state\" style=\"grid-column: 1/-1\">\n                    <h3>No profiles yet</h3>\n                    <p>Click \"+ Add Profile\" to start tracking LinkedIn profiles.</p>\n                </div>"
  | some profiles => joinAll (profiles.map (profileCard z))

/-! ## Rendering of posts -/

/-- The lookup `profileMap` filled by `profiles.forEach(p => { profileMap[p.id] = p; })`. -/
def buildProfileMap (profiles : List Profile) : Dict Nat Profile :=
  profiles.foldl (fun m p => m.set p.id p) []

/-- The value `profile.name || 'Unknown'` where
`profile = profileMap[post.profile_id] || {}`. -/
def profileNameOf (profileMap : Dict Nat Profile) (post : Post) : String :=
  orElse ((profileMap.get? post.profile_id).bind (fun p => p.name)) "Unknown"

/-- The value `profile.linkedin_url || ''`. -/
def profileUrlOf (profileMap : Dict Nat Profile) (post : Post) : String :=
  orElse ((profileMap.get? post.profile_id).bind (fun p => p.linkedin_url)) ""

/-- The content of the `post-author` span: the name inside an anchor when
`profileUrl` is truthy, the bare name otherwise. -/
def authorMarkup (profileName profileUrl : String) : String :=
  if !profileUrl.data.isEmpty then
    "<a href=\"" ++ escapeHtml (some profileUrl) ++ "\" target=\"_blank\" class=\"author-link\">"
      ++ escapeHtml (some profileName) ++ "</a>"
  else escapeHtml (some profileName)

/-- The value `(post.category || 'other').toLowerCase().replace(/\s+/g, '-')`. -/
def categoryClass (post : Post) : String :=
  replaceSpaceRuns (toLowerCase (orElse post.category "other"))

/-- The content of the `post-footer` element. -/
def footerMarkup (post : Post) : String :=
  if !falsy post.post_url then
    "<a href=\"" ++ escapeHtml post.post_url ++ "\" target=\"_blank\" class=\"view-post-link\">View on LinkedIn</a>"
  else ""

/-- The template literal mapped over the posts of a day in `loadPosts`. -/
def postCard (z : TimeZone) (now : Int) (profileMap : Dict Nat Profile) (post : Post) :
    String :=
  let profileName := profileNameOf profileMap post
  let profileUrl := profileUrlOf profileMap post
  "\n                <div class=\"post-card\">\n                    <div class=\"post-card-header\">\n                        <div class=\"post-author-info\">\n                            <span class=\"post-author-avatar\">"
    ++ toUpperCase (charAt0 profileName)
    ++ "</span>\n                            <div>\n                                <span class=\"post-author\">"
    ++ authorMarkup profileName profileUrl
    ++ "</span>\n                                <span class=\"post-time\">"
    ++ formatTimeAgo z now (post.post_timestamp.orElse post.created_at)
    ++ "</span>\n                            </div>\n                        </div>\n                        <span class=\"post-category "
    ++ categoryClass post
    ++ "\">"
    ++ escapeHtml (some (orElse post.category "Other"))
    ++ "</span>\n                    </div>\n                    <div class=\"post-summary\">"
    ++ escapeHtml (some (orElse post.summary "No summary"))
    ++ "</div>\n                    <div class=\"post-text-preview\">"
    ++ escapeHtml (some (ofUtf16 (truncate (post.post_text.map toUtf16) 200)))
    ++ "</div>\n                    <div class=\"post-reply\">\n                        <div class=\"post-reply-label\">Suggested Reply</div>\n                        "
    ++ escapeHtml (some (orElse post.suggested_reply "N/A"))
    ++ "\n                    </div>\n                    <div class=\"post-footer\">\n                        "
    ++ footerMarkup post
    ++ "\n                    </div>\n                </div>"

/-- The markup of one day group. -/
def dayGroupMarkup (z : TimeZone) (now : Int) (profileMap : Dict Nat Profile)
    (group : String × List Post) : String :=
  "<div class=\"day-group\">"
    ++ "<div class=\"day-header\">" ++ escapeHtml (some group.1) ++ "</div>"
    ++ joinAll (group.2.map (postCard z now profileMap))
    ++ "</div>"

/-- The markup `loadPosts` stores in `container.innerHTML`; a `none` response
stands for a failed request or an unparseable body, and an exception raised
while grouping ends in the same `catch`. -/
def loadPosts (z : TimeZone) (now : Int) (postsResponse : Option (List Post))
    (profilesResponse : Option (List Profile)) : String :=
  match postsResponse with
  | none => "<p class=\"loading\">Failed to load posts.</p>"
  | some [] =>
    "\n                <div class=\"empty-state\">\n                    <h3>No posts yet</h3>\n                    <p>Posts will appear here after the daily job runs or you trigger it manually.</p>\n                </div>"
  | some posts =>
    match profilesResponse with
    | none => "<p class=\"loading\">Failed to load posts.</p>"
    | some profiles =>
      match postGroups z now posts with
      | none => "<p class=\"loading\">Failed to load posts.</p>"
      | some groups =>
        joinAll (groups.map (dayGroupMarkup z now (buildProfileMap profiles)))

/-! ## Notification bodies -/

/-- `s.split('\n')` on character lists. -/
def splitLines : List Char → List (List Char)
  | [] => [[]]
  | c :: cs =>
    if c = '\n' then [] :: splitLines cs
    else
      match splitLines cs with
      | l :: ls => (c :: l) :: ls
      | [] => [[c]]

/-- One alternative of `https?:\/\/[^\s]+` anchored at the head of `l`: the
scheme, then the longest non-empty run of non-space characters.  Gives the
matched text and what follows it. -/
def matchScheme (scheme l : List Char) : Option (List Char × List Char) :=
  if scheme.isPrefixOf l then
    let after := l.drop scheme.length
    let run := after.takeWhile (fun c => !isSpace c)
    if run.isEmpty then none else some (scheme ++ run, after.dropWhile (fun c => !isSpace c))
  else none

/-- The pattern `https?:\/\/[^\s]+` anchored at the head of `l`. -/
def matchUrl (l : List Char) : Option (List Char × List Char) :=
  match matchScheme "https://".data l with
  | some m => some m
  | none => matchScheme "http://".data l

/-- The scan of `line.split(/(https?:\/\/[^\s]+)/g)`: `cur` is the text since
the last match.  Every step consumes a character, so a fuel equal to the
length of the input is never exhausted before the input is. -/
def splitUrlsAux : Nat → List Char → List Char → List (List Char)
  | 0, cur, l => [cur ++ l]
  | _ + 1, cur, [] => [cur]
  | fuel + 1, cur, c :: rest =>
    match matchUrl (c :: rest) with
    | some (url, after) => cur :: url :: splitUrlsAux fuel [] after
    | none => splitUrlsAux fuel (cur ++ [c]) rest

/-- `line.split(/(https?:\/\/[^\s]+)/g)`: text and matched URLs in turn. -/
def splitUrls (line : List Char) : List (List Char) := splitUrlsAux line.length [] line

/-- The test `part.match(/^https?:\/\//)`. -/
def startsWithScheme (part : List Char) : Bool :=
  "https://".data.isPrefixOf part || "http://".data.isPrefixOf part

/-- The inner `parts.map` callback of `formatNotifBody`. -/
def renderPart (part : List Char) : List Char :=
  if startsWithScheme part then
    "<a href=\"".data ++ part ++ "\" target=\"_blank\" class=\"notif-link\">".data
      ++ (if includesChars "linkedin.com".data part then "View Post".data else part)
      ++ "</a>".data
  else part

/-- The outer `map` callback of `formatNotifBody`: one line. -/
def renderLine (line : List Char) : List Char :=
  ((splitUrls line).map renderPart).flatten

/-- `formatNotifBody(body)`. -/
def formatNotifBody (body : Option String) : String :=
  if falsy body then ""
  else ⟨"<br>".data.intercalate ((splitLines (escapeHtml body).data).map renderLine)⟩

/-! ## Decoding of character references -/

/-- The named character references the decoder resolves, each with the
character it stands for: those `escapeHtml` can emit, and the two quotes. -/
def namedRefs : List (List Char × Char) :=
  [("&amp;".data, '&'), ("&lt;".data, '<'), ("&gt;".data, '>'),
    ("&nbsp;".data, Char.ofNat 160), ("&quot;".data, '"'), ("&apos;".data, Char.ofNat 39)]

/-- The reference of the table that the input starts with, if any. -/
def refAt (l : List Char) : Option (List Char × Char) :=
  namedRefs.find? (fun r => r.1.isPrefixOf l)

/-- Left-to-right decoding; `skip` counts the characters of an already
resolved reference that are still to be dropped. -/
def decodeAux : Nat → List Char → List Char
  | _, [] => []
  | k + 1, _ :: rest => decodeAux k rest
  | 0, c :: rest =>
    match refAt (c :: rest) with
    | some r => r.2 :: decodeAux (r.1.length - 1) rest
    | none => c :: decodeAux 0 rest

/-- Decoding of the HTML character references of a text, as the browser
does when it parses the escaped text back. -/
def decodeHtml (s : String) : String := ⟨decodeAux 0 s.data⟩

/-- The host of an absolute URL, the notion the contract of the link text
refers to: what stands between `://` and the next `/`, `?`, `#` or `:`.
The source has no such function. -/
def urlHost (url : String) : String :=
  let rest :=
    if "https://".data.isPrefixOf url.data then url.data.drop 8
    else if "http://".data.isPrefixOf url.data then url.data.drop 7
    else url.data
  ⟨rest.takeWhile (fun c => c != '/' && c != '?' && c != '#' && c != ':')⟩

/-- The host is `linkedin.com` or one of its subdomains. -/
def isLinkedInHost (host : String) : Bool :=
  host == "linkedin.com" || ".linkedin.com".data.isSuffixOf host.data

/-! ## The contract of the link text -/

/-- The text `url` is a match of the pattern `https?:\/\/[^\s]+` standing in
front of `after`: a scheme, then one or more characters that are not space,
as many as there are. -/
def UrlMatch (url after : List Char) : Prop :=
  ∃ run, (url = "https://".data ++ run ∨ url = "http://".data ++ run) ∧ run ≠ [] ∧
    (∀ c ∈ run, isSpace c = false) ∧ (∀ c ∈ after.head?, isSpace c = true)

/-- No match of the pattern starts at a character of `text` when `text`
stands in front of `rest`. -/
def NoUrlStartsIn (text rest : List Char) : Prop :=
  ∀ before tail, text = before ++ tail → tail ≠ [] →
    ∀ url after, tail ++ rest = url ++ after → ¬ UrlMatch url after

/-- The link text of a URL by containment: "View Post" when the URL contains
the text `linkedin.com`, the URL itself otherwise. -/
def linkText (url : List Char) : List Char :=
  if "linkedin.com".data <:+: url then "View Post".data else url

/-- The anchor element of a URL with that link text. -/
def linkMarkup (url : List Char) : List Char :=
  "<a href=\"".data ++ url ++ "\" target=\"_blank\" class=\"notif-link\">".data
    ++ linkText url ++ "</a>".data

/-- The parts of a split with `cur` put in front of the first part. -/
def consHead (cur : List Char) (parts : List (List Char)) : List (List Char) :=
  match parts with
  | [] => [cur]
  | p :: ps => (cur ++ p) :: ps

/-! ## Asynchronous handlers -/

/-- The observable effects of a handler. -/
inductive Effect where
  | preventDefault
  | request (method url : String)
  | call (fn : String)
  | setDisabled (element : String) (value : Bool)
  | setText (element : String) (value : String)
  | setClass (element : String) (value : String)
  | setTimeout (fn : String) (ms : Nat)
  | setDisplay (element : String) (value : String)
  deriving DecidableEq, Repr

/-- A run of handler code: the effects performed, in program order, and
either the value produced or `none` when an exception was thrown (for an
`async` function: its promise is rejected). -/
structure Run (α : Type) where
  trace : List Effect
  result : Option α

/-- Sequencing: what follows a thrown exception is not executed. -/
def Run.bind {α β : Type} (m : Run α) (f : α → Run β) : Run β :=
  match m.result with
  | none => ⟨m.trace, none⟩
  | some a => ⟨m.trace ++ (f a).trace, (f a).result⟩

instance : Monad Run where
  pure a := ⟨[], some a⟩
  bind := Run.bind

/-- Performing one effect. -/
def emit (e : Effect) : Run Unit := ⟨[e], some ()⟩

/-- A thrown exception or a rejected awaited promise. -/
def raise {α : Type} : Run α := ⟨[], none⟩

/-- The statement `try { body } catch (err) { handler }`. -/
def tryCatch {α : Type} (body handler : Run α) : Run α :=
  match body.result with
  | some _ => body
  | none => ⟨body.trace ++ handler.trace, handler.result⟩

/-- The statement `try { body } finally { cleanup }`. -/
def tryFinally {α : Type} (body : Run α) (cleanup : Run Unit) : Run α :=
  match cleanup.result with
  | some _ => ⟨body.trace ++ cleanup.trace, body.result⟩
  | none => ⟨body.trace ++ cleanup.trace, none⟩

/-- How a `fetch` settles: the request itself fails (network failure), or a
response arrives, with `ok` telling a 2xx status from an HTTP error and
`body` the parsed JSON (`none` when `res.json()` rejects). -/
inductive FetchOutcome (β : Type) where
  | networkFailure
  | response (ok : Bool) (body : Option β)

/-- The expression `await fetch(url, { method })`. -/
def awaitFetch {β : Type} (method url : String) (outcome : FetchOutcome β) :
    Run (Bool × Option β) := do
  emit (.request method url)
  match outcome with
  | .networkFailure => raise
  | .response ok body => pure (ok, body)

/-- The expression `await res.json()`. -/
def awaitJson {β : Type} (res : Bool × Option β) : Run β :=
  match res.2 with
  | none => raise
  | some data => pure data

/-- `showToast(message, type)`. -/
def showToast (message type : String) : Run Unit := do
  emit (.setText "toast" message)
  emit (.setClass "toast" ("toast " ++ type ++ " show"))
  emit (.setTimeout "toast.classList.remove('show')" 3000)

/-- `markRead(id)`. -/
def markRead (id : Nat) (outcome : FetchOutcome Unit) : Run Unit := do
  let _ ← awaitFetch "POST" ("/notifications/mark-read/" ++ toString id) outcome
  emit (.call "loadNotifications")
  emit (.call "updateNotifBadge")

/-- `markAllRead()`. -/
def markAllRead (outcome : FetchOutcome Unit) : Run Unit := do
  let _ ← awaitFetch "POST" "/notifications/mark-all-read" outcome
  emit (.call "loadNotifications")
  emit (.call "updateNotifBadge")
  showToast "All notifications marked as read" "success"

/-- The JSON body of the CSV import endpoint. -/
structure UploadBody where
  message : String
  added : Nat
  errors : Option (List String)
  detail : Option String

/-- `uploadCsv(event)` with `fileCount = fileInput.files.length`. -/
def uploadCsv (fileCount : Nat) (outcome : FetchOutcome UploadBody) : Run Unit := do
  emit .preventDefault
  if fileCount = 0 then
    showToast "Please select a CSV file" "error"
  else
    emit (.setDisabled "csv-upload-btn" true)
    emit (.setText "csv-upload-btn" "Uploading...")
    emit (.setClass "csv-upload-status" "status-msg loading")
    emit (.setText "csv-upload-status" "Processing CSV file...")
    tryFinally
      (tryCatch
        (do
          let res ← awaitFetch "POST" "/profiles/upload-csv" outcome
          let data ← awaitJson res
          if res.1 then
            emit (.setClass "csv-upload-status" "status-msg success")
            emit (.setText "csv-upload-status" data.message)
            match data.errors with
            | some (e :: es) =>
              emit (.setText "csv-upload-status"
                (data.message ++ " Errors: " ++ "; ".intercalate (e :: es)))
            | _ => pure ()
            showToast ("Imported " ++ toString data.added ++ " profile(s)") "success"
            emit (.call "loadProfiles")
            emit (.setTimeout "closeCsvModal" 2000)
          else
            emit (.setClass "csv-upload-status" "status-msg error")
            emit (.setText "csv-upload-status" (orElse data.detail "Upload failed"))
            showToast (orElse data.detail "CSV upload failed") "error")
        (do
          emit (.setClass "csv-upload-status" "status-msg error")
          emit (.setText "csv-upload-status" "Failed to upload CSV")
          showToast "Failed to upload CSV" "error"))
      (do
        emit (.setDisabled "csv-upload-btn" false)
        emit (.setText "csv-upload-btn" "Upload & Import"))

/-- The submit control of the CSV form. -/
structure Button where
  disabled : Bool
  textContent : String
  deriving DecidableEq, Repr

/-- The effect of one write on the element `csv-upload-btn`. -/
def Button.apply (b : Button) (e : Effect) : Button :=
  match e with
  | .setDisabled element value =>
    if element = "csv-upload-btn" then { b with disabled := value } else b
  | .setText element value =>
    if element = "csv-upload-btn" then { b with textContent := value } else b
  | _ => b

/-- The button after a run that started with the button `b`. -/
def Button.after (b : Button) (trace : List Effect) : Button := trace.foldl Button.apply b

/-- The JSON body of the unread-count endpoint. -/
structure UnreadCount where
  count : Nat

/-- `updateNotifBadge()`; the `catch` block is empty. -/
def updateNotifBadge (outcome : FetchOutcome UnreadCount) : Run Unit :=
  tryCatch
    (do
      let res ← awaitFetch "GET" "/notifications/unread-count" outcome
      let data ← awaitJson res
      if data.count > 0 then
        emit (.setText "notif-badge" (toString data.count))
        emit (.setDisplay "notif-badge" "inline-block")
      else
        emit (.setDisplay "notif-badge" "none"))
    (pure ())

/-- The element `notif-badge`: its `style.display` and its text. -/
structure Badge where
  display : String
  textContent : String
  deriving DecidableEq, Repr

/-- The effect of one write on the element `notif-badge`. -/
def Badge.apply (b : Badge) (e : Effect) : Badge :=
  match e with
  | .setDisplay element value =>
    if element = "notif-badge" then { b with display := value } else b
  | .setText element value =>
    if element = "notif-badge" then { b with textContent := value } else b
  | _ => b

/-- The badge after a run that started with the badge `b`. -/
def Badge.after (b : Badge) (trace : List Effect) : Badge := trace.foldl Badge.apply b

/-! ## Theorems -/


/-! ### Decimal numerals -/

theorem toDigitsCore_last (b fuel n : Nat) (ds : List Char) :
    ∃ pre, Nat.toDigitsCore b (fuel + 1) n ds = pre ++ Nat.digitChar (n % b) :: ds := by
  induction fuel generalizing n ds with
  | zero =>
    refine ⟨[], ?_⟩
    simp [Nat.toDigitsCore]
  | succ k ih =>
    rw [Nat.toDigitsCore]
    by_cases h : n / b = 0
    · exact ⟨[], by simp [h]⟩
    · obtain ⟨pre, hpre⟩ := ih (n / b) (Nat.digitChar (n % b) :: ds)
      refine ⟨pre ++ [Nat.digitChar (n / b % b)], ?_⟩
      simp only [h, if_false]
      rw [hpre]
      simp

theorem repr_last (n : Nat) :
    ∃ pre, (toString n).data = pre ++ [Nat.digitChar (n % 10)] := by
  obtain ⟨pre, h⟩ := toDigitsCore_last 10 n n []
  exact ⟨pre, h⟩

theorem digitChar_ne_o (k : Nat) (h : k < 10) : Nat.digitChar k ≠ 'o' := by
  interval_cases k <;> decide

/-- A text that ends in a decimal numeral does not end in `ago`. -/
theorem not_ago_suffix (s : String) (n : Nat) :
    ¬ ("ago".data <:+ (s ++ toString n).data) := by
  intro hs
  obtain ⟨pre, hpre⟩ := repr_last n
  obtain ⟨u, hu⟩ := hs
  rw [String.data_append, hpre] at hu
  have h1 : (u ++ "ago".data).getLast? = some 'o' := by simp
  rw [hu, ← List.append_assoc] at h1
  simp at h1
  exact digitChar_ne_o (n % 10) (Nat.mod_lt _ (by decide)) h1

/-! ### formatTimeAgo -/

/-- C1: `formatTimeAgo` on an elapsed time `now - t` that is a non-negative
number of milliseconds gives "just now" below one minute, the floored
minutes, hours and days with the suffixes "m ago", "h ago" and "d ago" in
the next three brackets, each bracket closed below and open above, and from
seven days on the month-day date, which carries no "ago" suffix; 59s, 60s,
59m59s, 60m, 6d23h and 7d fall where the brackets say. -/
theorem formatTimeAgo_brackets (z : TimeZone) (now t : Int) (h : 0 ≤ now - t) :
    (now - t < 60000 → formatTimeAgo z now (.time t) = "just now") ∧
    (60000 ≤ now - t → now - t < 3600000 →
      formatTimeAgo z now (.time t) = toString ((now - t) / 60000) ++ "m ago") ∧
    (3600000 ≤ now - t → now - t < 86400000 →
      formatTimeAgo z now (.time t) = toString ((now - t) / 3600000) ++ "h ago") ∧
    (86400000 ≤ now - t → now - t < 604800000 →
      formatTimeAgo z now (.time t) = toString ((now - t) / 86400000) ++ "d ago") ∧
    (604800000 ≤ now - t →
      formatTimeAgo z now (.time t) = toLocaleMonthDay z t ∧
      ¬ ("ago".data <:+ (formatTimeAgo z now (.time t)).data)) ∧
    formatTimeAgo z now (.time (now - 59 * 1000)) = "just now" ∧
    formatTimeAgo z now (.time (now - 60 * 1000)) = "1m ago" ∧
    formatTimeAgo z now (.time (now - (59 * 60000 + 59 * 1000))) = "59m ago" ∧
    formatTimeAgo z now (.time (now - 60 * 60000)) = "1h ago" ∧
    formatTimeAgo z now (.time (now - (6 * 86400000 + 23 * 3600000))) = "6d ago" ∧
    formatTimeAgo z now (.time (now - 7 * 86400000)) =
      toLocaleMonthDay z (now - 7 * 86400000) := by
  refine ⟨?_, ?_, ?_, ?_, ?_, ?_, ?_, ?_, ?_, ?_, ?_⟩
  · intro h1
    have a : (now - t) / 60000 < 1 := by omega
    simp only [formatTimeAgo, a, if_true]
  · intro h1 h2
    have a : ¬ (now - t) / 60000 < 1 := by omega
    have b : (now - t) / 60000 < 60 := by omega
    simp only [formatTimeAgo, a, b, if_true, if_false]
  · intro h1 h2
    have a : ¬ (now - t) / 60000 < 1 := by omega
    have b : ¬ (now - t) / 60000 < 60 := by omega
    have c : (now - t) / 3600000 < 24 := by omega
    simp only [formatTimeAgo, a, b, c, if_true, if_false]
  · intro h1 h2
    have a : ¬ (now - t) / 60000 < 1 := by omega
    have b : ¬ (now - t) / 60000 < 60 := by omega
    have c : ¬ (now - t) / 3600000 < 24 := by omega
    have d : (now - t) / 86400000 < 7 := by omega
    simp only [formatTimeAgo, a, b, c, d, if_true, if_false]
  · intro h1
    have a : ¬ (now - t) / 60000 < 1 := by omega
    have b : ¬ (now - t) / 60000 < 60 := by omega
    have c : ¬ (now - t) / 3600000 < 24 := by omega
    have d : ¬ (now - t) / 86400000 < 7 := by omega
    have e : formatTimeAgo z now (.time t) = toLocaleMonthDay z t := by
      simp only [formatTimeAgo, a, b, c, d, if_true, if_false]
    refine ⟨e, ?_⟩
    rw [e]
    exact not_ago_suffix _ _
  · have e : now - (now - (59 * 1000)) = 59 * 1000 := by omega
    simp only [formatTimeAgo, e]
    split_ifs <;> first | decide | omega
  · have e : now - (now - (60 * 1000)) = 60 * 1000 := by omega
    simp only [formatTimeAgo, e]
    split_ifs <;> first | decide | omega
  · have e : now - (now - (59 * 60000 + 59 * 1000)) = 59 * 60000 + 59 * 1000 := by omega
    simp only [formatTimeAgo, e]
    split_ifs <;> first | decide | omega
  · have e : now - (now - (60 * 60000)) = 60 * 60000 := by omega
    simp only [formatTimeAgo, e]
    split_ifs <;> first | decide | omega
  · have e : now - (now - (6 * 86400000 + 23 * 3600000)) = 6 * 86400000 + 23 * 3600000 := by omega
    simp only [formatTimeAgo, e]
    split_ifs <;> first | decide | omega
  · have e : now - (now - 7 * 86400000) = 7 * 86400000 := by omega
    simp only [formatTimeAgo, e]
    rfl

/-- Witness of C1 in UTC at 2024-03-09T16:00:00Z: one timestamp in each
bracket. -/
theorem formatTimeAgo_brackets_witness :
    formatTimeAgo (fixedZone 0) 1710000000000 (.time 1709999999000) = "just now" ∧
    formatTimeAgo (fixedZone 0) 1710000000000 (.time 1709999000000) = "16m ago" ∧
    formatTimeAgo (fixedZone 0) 1710000000000 (.time 1709990000000) = "2h ago" ∧
    formatTimeAgo (fixedZone 0) 1710000000000 (.time 1709800000000) = "2d ago" ∧
    formatTimeAgo (fixedZone 0) 1710000000000 (.time 1709000000000) = "Feb 27" :=
  ⟨(formatTimeAgo_brackets (fixedZone 0) 1710000000000 1709999999000 (by decide)).1
      (by decide),
    (formatTimeAgo_brackets (fixedZone 0) 1710000000000 1709999000000 (by decide)).2.1
      (by decide) (by decide),
    (formatTimeAgo_brackets (fixedZone 0) 1710000000000 1709990000000 (by decide)).2.2.1
      (by decide) (by decide),
    (formatTimeAgo_brackets (fixedZone 0) 1710000000000 1709800000000 (by decide)).2.2.2.1
      (by decide) (by decide),
    ((formatTimeAgo_brackets (fixedZone 0) 1710000000000 1709000000000
      (by decide)).2.2.2.2.1 (by decide)).1⟩

/-! ### truncate -/

/-- C9: for every string `s`, taken as its UTF-16 code units, and every `N`,
`truncate(s, N)` returns `s` unchanged when `s` has at most `N` code units
and otherwise the first `N` of them followed by "..."; the result is the cut
text with the added ellipsis exactly when `s` is longer than `N`, and it
never has more than `N + 3` code units. -/
theorem truncate_spec (s : CodeUnits) (N : Nat) :
    (s.length ≤ N → truncate (some s) N = s) ∧
    (N < s.length → truncate (some s) N = s.take N ++ toUtf16 "...") ∧
    (truncate (some s) N = s.take N ++ toUtf16 "..." ↔ N < s.length) ∧
    (truncate (some s) N).length ≤ N + 3 := by
  have h3 : (toUtf16 "...").length = 3 := rfl
  have short : s.length ≤ N → truncate (some s) N = s := by
    intro hle
    cases s with
    | nil => rfl
    | cons c cs =>
      show (if (c :: cs).isEmpty = true then [] else
        if (c :: cs).length > N then _ else _) = _
      rw [if_neg (by simp), if_neg (by omega)]
  have long : N < s.length → truncate (some s) N = s.take N ++ toUtf16 "..." := by
    intro hlt
    cases s with
    | nil => exact absurd hlt (by simp)
    | cons c cs =>
      show (if (c :: cs).isEmpty = true then [] else
        if (c :: cs).length > N then _ else _) = _
      rw [if_neg (by simp), if_pos hlt]
  have cut : (s.take N ++ toUtf16 "...").length = min N s.length + 3 := by
    rw [List.length_append, h3, List.length_take]
  refine ⟨short, long, ⟨fun heq => ?_, long⟩, ?_⟩
  · by_contra hn
    rw [short (by omega)] at heq
    have := congrArg List.length heq
    rw [cut] at this
    omega
  · by_cases hle : s.length ≤ N
    · rw [short hle]; omega
    · rw [long (by omega), cut]
      omega

/-- Witness of C9: a string of an emoji (two code units) and a letter, cut
after two code units and after one. -/
theorem truncate_spec_witness :
    truncate (some (toUtf16 "😀b")) 2 = [55357, 56832, 46, 46, 46] ∧
    ofUtf16 (truncate (some (toUtf16 "😀b")) 2) = "😀..." ∧
    truncate (some (toUtf16 "😀b")) 1 = [55357, 46, 46, 46] ∧
    truncate (some (toUtf16 "😀b")) 3 = toUtf16 "😀b" :=
  ⟨((truncate_spec (toUtf16 "😀b") 2).2.1 (by decide)).trans (by decide),
    by decide,
    ((truncate_spec (toUtf16 "😀b") 1).2.1 (by decide)).trans (by decide),
    (truncate_spec (toUtf16 "😀b") 3).1 (by decide)⟩

/-- A code point is not a surrogate and lies below 0x110000. -/
theorem char_toNat_valid (c : Char) :
    c.toNat < 55296 ∨ (57343 < c.toNat ∧ c.toNat < 1114112) := by
  have h := c.valid
  simp only [UInt32.isValidChar, Nat.isValidChar] at h
  exact h

theorem charsOfUtf16_utf16Units (c : Char) (rest : CodeUnits) :
    charsOfUtf16 (utf16Units c ++ rest) = c :: charsOfUtf16 rest := by
  have hv := char_toNat_valid c
  unfold utf16Units
  by_cases hb : c.toNat < 65536
  · have hu : unitChar c.toNat = c := by
      unfold unitChar
      rw [if_neg (by omega), Char.ofNat_toNat]
    rw [if_pos hb]
    cases rest with
    | nil => simp [charsOfUtf16, hu]
    | cons lo r =>
      show charsOfUtf16 (c.toNat :: lo :: r) = _
      rw [charsOfUtf16, if_neg (by omega), hu]
  · rw [if_neg hb]
    show charsOfUtf16 ((55296 + (c.toNat - 65536) / 1024) ::
      (56320 + (c.toNat - 65536) % 1024) :: rest) = _
    rw [charsOfUtf16, if_pos (by omega)]
    have : 65536 + (55296 + (c.toNat - 65536) / 1024 - 55296) * 1024 +
        (56320 + (c.toNat - 65536) % 1024 - 56320) = c.toNat := by omega
    rw [this, Char.ofNat_toNat]

/-- Reading the code units of a string back gives the string. -/
theorem ofUtf16_toUtf16 (s : String) : ofUtf16 (toUtf16 s) = s := by
  cases s with
  | mk d =>
    unfold ofUtf16 toUtf16
    congr 1
    induction d with
    | nil => rfl
    | cons c cs ih =>
      show charsOfUtf16 ((c :: cs).flatMap utf16Units) = c :: cs
      rw [List.flatMap_cons, charsOfUtf16_utf16Units]
      exact congrArg _ ih
/-! ### escapeHtml -/

theorem decodeAux_skip (pre l : List Char) :
    decodeAux pre.length (pre ++ l) = decodeAux 0 l := by
  induction pre with
  | nil => rfl
  | cons c pre ih => simpa [decodeAux] using ih

theorem refAt_other (c : Char) (rest : List Char) (h : c ≠ '&') :
    refAt (c :: rest) = none := by
  have h' : ¬ ('&' = c) := fun e => h e.symm
  simp [refAt, namedRefs, List.isPrefixOf, h']

theorem decodeAux_escapeChar (c : Char) (l : List Char) :
    decodeAux 0 (escapeChar c ++ l) = c :: decodeAux 0 l := by
  unfold escapeChar
  split_ifs with h1 h2 h3 h4
  · subst h1
    simp [decodeAux, refAt, namedRefs, List.isPrefixOf]
  · subst h2
    simp [decodeAux, refAt, namedRefs, List.isPrefixOf]
  · subst h3
    simp [decodeAux, refAt, namedRefs, List.isPrefixOf]
  · subst h4
    simp [decodeAux, refAt, namedRefs, List.isPrefixOf]
  · simp [decodeAux, refAt_other c _ h1]

theorem decode_escape (l : List Char) : decodeAux 0 (l.flatMap escapeChar) = l := by
  induction l with
  | nil => rfl
  | cons c rest ih => rw [List.flatMap_cons, decodeAux_escapeChar, ih]

theorem escapeChar_no_angle (c : Char) : '<' ∉ escapeChar c ∧ '>' ∉ escapeChar c := by
  unfold escapeChar
  split_ifs with h1 h2 h3 h4
  · decide
  · decide
  · decide
  · decide
  · simp only [List.mem_singleton]
    exact ⟨fun h => h2 h.symm, fun h => h3 h.symm⟩

theorem escapeHtml_data (s : String) :
    (escapeHtml (some s)).data = s.data.flatMap escapeChar := by
  unfold escapeHtml
  cases s with
  | mk d =>
    cases d with
    | nil => rfl
    | cons c cs => simp

theorem escapeHtml_no_angle (str : Option String) :
    '<' ∉ (escapeHtml str).data ∧ '>' ∉ (escapeHtml str).data := by
  cases str with
  | none => exact ⟨by decide, by decide⟩
  | some s =>
    rw [escapeHtml_data]
    simp only [List.mem_flatMap, not_exists, not_and]
    exact ⟨fun c _ => (escapeChar_no_angle c).1, fun c _ => (escapeChar_no_angle c).2⟩

/-- C5: for every string `s`, `escapeHtml(s)` contains neither `<` nor `>`,
and decoding the character references of `escapeHtml(s)` gives back `s`. -/
theorem escapeHtml_roundtrip (s : String) :
    '<' ∉ (escapeHtml (some s)).data ∧ '>' ∉ (escapeHtml (some s)).data ∧
      decodeHtml (escapeHtml (some s)) = s := by
  refine ⟨(escapeHtml_no_angle (some s)).1, (escapeHtml_no_angle (some s)).2, ?_⟩
  unfold decodeHtml
  rw [escapeHtml_data, decode_escape]


/-! ### formatDayGroup -/

/-- The label of `formatDayGroup` depends on the two timestamps only through
their local calendar days. -/
theorem formatDayGroup_day_only (z : TimeZone) (now now' t t' : Int)
    (hn : Day (LocalTime z now) = Day (LocalTime z now'))
    (ht : Day (LocalTime z t) = Day (LocalTime z t')) :
    formatDayGroup z now (.time t) = formatDayGroup z now' (.time t') := by
  simp only [formatDayGroup, localYMD, toLocaleWeekday, toLocaleFullDate, WeekDay, hn, ht]

/-- C2, at a record dated after today: in UTC at 2024-03-09T16:00:00Z a
record of 2024-03-10 (one day ahead) is labelled with the bare weekday
"Sunday" and a record of 2026-02-07 (700 days ahead) with "Saturday", where
the contract asks for the full dates. -/
theorem formatDayGroup_future_day :
    formatDayGroup (fixedZone 0) 1710000000000 (.time 1710086400000) = "Sunday" ∧
    toLocaleFullDate (fixedZone 0) 1710086400000 = "Sunday, March 10, 2024" ∧
    localYMD (fixedZone 0) 1710000000000 = (2024, 2, 9) ∧
    formatDayGroup (fixedZone 0) 1710000000000 (.time 1770480000000) = "Saturday" ∧
    toLocaleFullDate (fixedZone 0) 1770480000000 = "Saturday, February 7, 2026" := by
  refine ⟨?_, ?_, ?_, ?_, ?_⟩ <;> decide

/-- The day after the clocks go forward: in US Eastern time at noon of
2024-03-11 a record of noon of 2024-03-10 is labelled "Today", the two local
midnights being 23 hours apart. -/
theorem formatDayGroup_dst_yesterday :
    formatDayGroup usEastern2024 1710172800000 (.time 1710086400000) = "Today" ∧
    localYMD usEastern2024 1710172800000 = (2024, 2, 11) ∧
    localYMD usEastern2024 1710086400000 = (2024, 2, 10) ∧
    newDateYMD usEastern2024 (2024, 2, 11) - newDateYMD usEastern2024 (2024, 2, 10) =
      23 * 3600000 := by
  refine ⟨?_, ?_, ?_, ?_⟩ <;> decide

theorem weekdayLong_startsUpper (w : Int) (h0 : 0 ≤ w) (h7 : w < 7) :
    startsUpper (weekdayLong w) = true := by
  obtain ⟨n, rfl⟩ := Int.eq_ofNat_of_zero_le h0
  have hn : n < 7 := by omega
  interval_cases n <;> decide

theorem startsUpper_append (a b : String) (h : startsUpper a = true) :
    startsUpper (a ++ b) = true := by
  unfold startsUpper at h ⊢
  rw [String.data_append]
  cases hd : a.data with
  | nil => rw [hd] at h; exact absurd h (by simp)
  | cons c cs => rw [hd] at h; simpa using h

theorem formatDayGroup_startsUpper (z : TimeZone) (now : Int) (ts : Timestamp) :
    startsUpper (formatDayGroup z now ts) = true := by
  have hw : ∀ t, startsUpper (weekdayLong (WeekDay t)) = true := fun t =>
    weekdayLong_startsUpper _ (Int.emod_nonneg _ (by decide))
      (Int.emod_lt_of_pos _ (by decide))
  cases ts with
  | missing => rfl
  | invalid => rfl
  | time t =>
    simp only [formatDayGroup]
    split_ifs
    · decide
    · decide
    · exact hw _
    · unfold toLocaleFullDate
      exact startsUpper_append _ _ (startsUpper_append _ _ (startsUpper_append _ _
        (startsUpper_append _ _ (startsUpper_append _ _ (startsUpper_append _ _ (hw _))))))

theorem startsUpper_not_inherited (s : String) (h : startsUpper s = true) :
    s ∉ objectPrototypeKeys := by
  intro hm
  simp only [objectPrototypeKeys, List.mem_cons, List.mem_singleton, List.not_mem_nil,
    or_false] at hm
  rcases hm with e | e | e | e | e | e | e | e | e | e | e | e <;>
    (rw [e] at h; exact absurd h (by decide))

theorem startsUpper_not_arrayIndex (s : String) (h : startsUpper s = true) :
    isArrayIndex s = false := by
  unfold startsUpper at h
  unfold isArrayIndex
  cases hd : s.data with
  | nil => rfl
  | cons c cs =>
    rw [hd] at h
    simp only [Bool.and_eq_true, decide_eq_true_eq] at h
    have : isDigitChar c = false := by
      unfold isDigitChar
      simp only [Bool.and_eq_false_imp, decide_eq_true_eq, decide_eq_false_iff_not]
      omega
    simp [this]


/-! ### Dictionaries -/

theorem Dict.get?_set_self {κ α : Type} [DecidableEq κ] (o : Dict κ α) (k : κ) (v : α) :
    (o.set k v).get? k = some v := by
  induction o with
  | nil => simp [Dict.set, Dict.get?]
  | cons e rest ih =>
    obtain ⟨k', v'⟩ := e
    by_cases h : k' = k
    · simp [Dict.set, Dict.get?, h]
    · simp [Dict.set, Dict.get?, h, ih]

theorem Dict.get?_set_ne {κ α : Type} [DecidableEq κ] (o : Dict κ α) (k j : κ) (v : α)
    (hne : k ≠ j) : (o.set k v).get? j = o.get? j := by
  induction o with
  | nil => simp [Dict.set, Dict.get?, hne]
  | cons e rest ih =>
    obtain ⟨k', v'⟩ := e
    by_cases h : k' = k
    · subst h
      simp [Dict.set, Dict.get?, hne]
    · by_cases hj : k' = j
      · subst hj
        simp [Dict.set, Dict.get?, h]
      · simp [Dict.set, Dict.get?, h, hj, ih]

theorem Dict.set_of_get?_none {κ α : Type} [DecidableEq κ] (o : Dict κ α) (k : κ) (v : α)
    (h : o.get? k = none) : o.set k v = o ++ [(k, v)] := by
  induction o with
  | nil => rfl
  | cons e rest ih =>
    obtain ⟨k', v'⟩ := e
    by_cases hk : k' = k
    · simp [Dict.get?, hk] at h
    · simp only [Dict.get?, hk, if_false] at h
      simp [Dict.set, hk, ih h]

theorem Dict.set_set {κ α : Type} [DecidableEq κ] (o : Dict κ α) (k : κ) (v w : α) :
    (o.set k v).set k w = o.set k w := by
  induction o with
  | nil => simp [Dict.set]
  | cons e rest ih =>
    obtain ⟨k', v'⟩ := e
    by_cases hk : k' = k
    · simp [Dict.set, hk]
    · simp [Dict.set, hk, ih]

/-- The dictionary that maps each label of `ls` to `f` of it. -/
theorem Dict.get?_tabulate {α : Type} (ls : List String) (f : String → α) (k : String) :
    Dict.get? (ls.map (fun l => (l, f l))) k = if k ∈ ls then some (f k) else none := by
  induction ls with
  | nil => simp [Dict.get?]
  | cons l rest ih =>
    by_cases h : l = k
    · subst h
      simp [Dict.get?]
    · have h' : ¬ k = l := fun e => h e.symm
      simp [Dict.get?, h, h', ih]

theorem Dict.set_tabulate {α : Type} (ls : List String) (f : String → α) (k : String)
    (v : α) (hk : k ∈ ls) (hnd : ls.Nodup) :
    Dict.set (ls.map (fun l => (l, f l))) k v =
      ls.map (fun l => (l, if l = k then v else f l)) := by
  induction ls with
  | nil => simp at hk
  | cons l rest ih =>
    rw [List.nodup_cons] at hnd
    by_cases h : l = k
    · subst h
      have : ∀ x ∈ rest, (x, if x = l then v else f x) = (x, f x) := by
        intro x hx
        have : x ≠ l := fun e => hnd.1 (e ▸ hx)
        simp [this]
      simp only [List.map_cons, Dict.set, if_true]
      rw [List.map_congr_left this]
    · have hk' : k ∈ rest := by
        rcases List.mem_cons.mp hk with e | e
        · exact absurd e.symm h
        · exact e
      simp only [List.map_cons, Dict.set, h, if_false]
      rw [ih hk' hnd.2]

/-! ### Day grouping -/

theorem firstOccurrences_append_singleton (l : List String) (x : String) :
    firstOccurrences (l ++ [x]) =
      if x ∈ l then firstOccurrences l else firstOccurrences l ++ [x] := by
  induction l with
  | nil => simp [firstOccurrences]
  | cons a l ih =>
    have step : firstOccurrences (a :: l ++ [x]) =
        a :: (firstOccurrences (l ++ [x])).filter (fun y => y ≠ a) := rfl
    have unfold_cons : firstOccurrences (a :: l) =
        a :: (firstOccurrences l).filter (fun y => y ≠ a) := rfl
    rw [step, ih, unfold_cons]
    by_cases hx : x ∈ l
    · simp [hx]
    · by_cases hxa : x = a
      · subst hxa
        simp [hx, List.filter_append]
      · simp [hx, hxa, List.filter_append]

theorem mem_firstOccurrences (l : List String) (x : String) :
    x ∈ firstOccurrences l ↔ x ∈ l := by
  induction l with
  | nil => simp [firstOccurrences]
  | cons a l ih =>
    simp only [firstOccurrences, List.mem_cons, List.mem_filter, ih, decide_eq_true_eq]
    by_cases h : x = a
    · simp [h]
    · simp [h]

theorem nodup_firstOccurrences (l : List String) : (firstOccurrences l).Nodup := by
  induction l with
  | nil => simp [firstOccurrences]
  | cons a l ih =>
    simp only [firstOccurrences, List.nodup_cons, List.mem_filter, decide_eq_true_eq]
    exact ⟨fun h => h.2 rfl, ih.filter _⟩

theorem groupStep_plain {α : Type} (key : α → String) (g : Dict String (List α)) (r : α)
    (h : key r ∉ objectPrototypeKeys) : groupStep key g r = some (addTo g (key r) r) := by
  unfold groupStep addTo
  simp only [h, if_false]
  cases hg : Dict.get? g (key r) with
  | none =>
    simp only [Option.isNone_none, if_true, Dict.get?_set_self, Option.getD_some,
      List.nil_append, Dict.set_set]
    rw [Dict.set_of_get?_none g _ _ hg]
  | some rs => simp [hg]

theorem foldlM_groupStep {α : Type} (key : α → String) (records : List α)
    (h : ∀ r ∈ records, key r ∉ objectPrototypeKeys) (g : Dict String (List α)) :
    records.foldlM (groupStep key) g =
      some (records.foldl (fun acc r => addTo acc (key r) r) g) := by
  induction records generalizing g with
  | nil => rfl
  | cons r rest ih =>
    rw [List.foldlM_cons, groupStep_plain key g r (h r (List.mem_cons_self _ _))]
    simp only [Option.some_bind, List.foldl_cons]
    exact ih (fun x hx => h x (List.mem_cons_of_mem _ hx)) _

theorem referenceGroups_append_singleton {α : Type} (key : α → String) (init : List α)
    (r : α) :
    referenceGroups key (init ++ [r]) = addTo (referenceGroups key init) (key r) r := by
  unfold referenceGroups addTo
  rw [List.map_append, List.map_singleton, firstOccurrences_append_singleton,
    Dict.get?_tabulate]
  simp only [mem_firstOccurrences]
  by_cases hk : key r ∈ init.map key
  · simp only [hk, if_true]
    rw [Dict.set_tabulate _ _ _ _ ((mem_firstOccurrences _ _).mpr hk)
      (nodup_firstOccurrences _)]
    apply List.map_congr_left
    intro l _
    by_cases hl : l = key r
    · subst hl
      simp [List.filter_append]
    · have : ¬ key r = l := fun e => hl e.symm
      simp [List.filter_append, hl, this]
  · simp only [hk, if_false, List.map_append, List.map_singleton]
    congr 1
    · apply List.map_congr_left
      intro l hl
      have : ¬ key r = l := by
        intro e
        exact hk (e ▸ (mem_firstOccurrences _ _).mp hl)
      simp [List.filter_append, this]
    · have : init.filter (fun x => decide (key x = key r)) = [] := by
        rw [List.filter_eq_nil_iff]
        intro x hx hx'
        exact hk (List.mem_map.mpr ⟨x, hx, of_decide_eq_true hx'⟩)
      simp [List.filter_append, this]

theorem foldl_addTo_eq_reference {α : Type} (key : α → String) (records : List α) :
    records.foldl (fun acc r => addTo acc (key r) r) [] = referenceGroups key records := by
  induction records using List.reverseRecOn with
  | nil => rfl
  | append_singleton init r ih =>
    rw [List.foldl_append, ih, referenceGroups_append_singleton]
    rfl

theorem entries_of_no_arrayIndex {α : Type} (o : Dict String α)
    (h : ∀ e ∈ o, isArrayIndex e.1 = false) : Dict.entries o = o := by
  unfold Dict.entries
  have h1 : o.filter (fun e => isArrayIndex e.1) = [] := by
    rw [List.filter_eq_nil_iff]
    intro e he
    simp [h e he]
  have h2 : o.filter (fun e => !isArrayIndex e.1) = o := by
    rw [List.filter_eq_self]
    intro e he
    simp [h e he]
  rw [h1, h2]
  rfl

theorem groupByDay_eq_reference {α : Type} (key : α → String) (records : List α)
    (h : ∀ r ∈ records, startsUpper (key r) = true) :
    groupByDay key records = some (referenceGroups key records) := by
  unfold groupByDay
  rw [foldlM_groupStep key records (fun r hr => startsUpper_not_inherited _ (h r hr)),
    foldl_addTo_eq_reference, Option.map_some']
  congr 1
  apply entries_of_no_arrayIndex
  intro e he
  unfold referenceGroups at he
  obtain ⟨l, hl, rfl⟩ := List.mem_map.mp he
  obtain ⟨r, hr, rfl⟩ := List.mem_map.mp ((mem_firstOccurrences _ _).mp hl)
  exact startsUpper_not_arrayIndex _ (h r hr)


theorem flatten_set_perm {α : Type} (g : Dict String (List α)) (k : String) (rs : List α)
    (r : α) (h : Dict.get? g k = some rs) :
    (((Dict.set g k (rs ++ [r])).map Prod.snd).flatten).Perm
      ((g.map Prod.snd).flatten ++ [r]) := by
  induction g with
  | nil => simp [Dict.get?] at h
  | cons e rest ih =>
    obtain ⟨k', v'⟩ := e
    by_cases hk : k' = k
    · simp only [Dict.get?, hk, if_true, Option.some.injEq] at h
      subst h
      simp only [Dict.set, hk, if_true, List.map_cons, List.flatten_cons, List.append_assoc]
      exact List.Perm.append_left _ List.perm_append_comm
    · simp only [Dict.get?, hk, if_false] at h
      simp only [Dict.set, hk, if_false, List.map_cons, List.flatten_cons,
        List.append_assoc]
      exact List.Perm.append_left _ (ih h)

theorem flatten_addTo_perm {α : Type} (g : Dict String (List α)) (k : String) (r : α) :
    ((((addTo g k r)).map Prod.snd).flatten).Perm ((g.map Prod.snd).flatten ++ [r]) := by
  unfold addTo
  cases h : Dict.get? g k with
  | none => simp
  | some rs => exact flatten_set_perm g k rs r h

theorem referenceGroups_perm {α : Type} (key : α → String) (records : List α) :
    ((((referenceGroups key records)).map Prod.snd).flatten).Perm records := by
  induction records using List.reverseRecOn with
  | nil => exact List.Perm.refl _
  | append_singleton init r ih =>
    rw [referenceGroups_append_singleton]
    exact (flatten_addTo_perm _ _ _).trans (List.Perm.append_right _ ih)

theorem referenceGroups_labels {α : Type} (key : α → String) (records : List α) :
    (referenceGroups key records).map Prod.fst = firstOccurrences (records.map key) := by
  unfold referenceGroups
  rw [List.map_map]
  exact List.map_id _

theorem referenceGroups_group {α : Type} (key : α → String) (records : List α)
    (g : String × List α) (hg : g ∈ referenceGroups key records) :
    g.2 = records.filter (fun r => key r = g.1) ∧ g.2 ≠ [] := by
  unfold referenceGroups at hg
  obtain ⟨l, hl, rfl⟩ := List.mem_map.mp hg
  refine ⟨rfl, ?_⟩
  obtain ⟨r, hr, hkey⟩ := List.mem_map.mp ((mem_firstOccurrences _ _).mp hl)
  intro hnil
  have : r ∈ records.filter (fun r => key r = l) := by
    simp [List.mem_filter, hr, hkey]
  simp only at hnil
  rw [hnil] at this
  exact List.not_mem_nil _ this

/-- C3: the grouping done in `loadPosts` and in `loadNotifications` is the
reference grouping, for every input list: the groups are listed by first
appearance of their label, the labels are pairwise distinct, the group of a
label holds exactly the input records with that label in input order, no
group is empty, a record lies in the group of its own label and in no other,
and the groups together hold every input record exactly once. -/
theorem dayGrouping_refines_reference (z : TimeZone) (now : Int) :
    (∀ posts : List Post,
      postGroups z now posts = some (referenceGroups (postDayLabel z now) posts)) ∧
    (∀ notifs : List Notification,
      notifGroups z now notifs = some (referenceGroups (notifDayLabel z now) notifs)) ∧
    (∀ (α : Type) (key : α → String) (records : List α),
      (referenceGroups key records).map Prod.fst = firstOccurrences (records.map key) ∧
      ((referenceGroups key records).map Prod.fst).Nodup ∧
      (∀ g ∈ referenceGroups key records,
        g.2 = records.filter (fun r => key r = g.1) ∧ g.2 ≠ []) ∧
      (∀ r ∈ records, ∀ g ∈ referenceGroups key records, r ∈ g.2 ↔ g.1 = key r) ∧
      ((((referenceGroups key records)).map Prod.snd).flatten).Perm records) := by
  refine ⟨fun posts => ?_, fun notifs => ?_, fun α key records => ⟨?_, ?_, ?_, ?_, ?_⟩⟩
  · exact groupByDay_eq_reference _ _ (fun r _ => formatDayGroup_startsUpper z now _)
  · exact groupByDay_eq_reference _ _ (fun r _ => formatDayGroup_startsUpper z now _)
  · exact referenceGroups_labels key records
  · rw [referenceGroups_labels]
    exact nodup_firstOccurrences _
  · exact referenceGroups_group key records
  · intro r hr g hg
    rw [(referenceGroups_group key records g hg).1]
    simp only [List.mem_filter, hr, true_and, decide_eq_true_eq]
    exact eq_comm
  · exact referenceGroups_perm key records

/-- Witness of C3: three posts in UTC at 2024-03-09T16:00:00Z, the second of
an earlier day than the first and the third. -/
theorem dayGrouping_refines_reference_witness :
    postGroups (fixedZone 0) 1710000000000
        [⟨1, 7, none, none, none, none, none, .missing, .time 1709990000000⟩,
          ⟨2, 1, none, none, none, none, none, .time 1709000000000, .time 1709990000000⟩,
          ⟨3, 1, none, none, none, none, none, .time 1709990000001, .missing⟩] =
      some (referenceGroups (postDayLabel (fixedZone 0) 1710000000000)
        [⟨1, 7, none, none, none, none, none, .missing, .time 1709990000000⟩,
          ⟨2, 1, none, none, none, none, none, .time 1709000000000, .time 1709990000000⟩,
          ⟨3, 1, none, none, none, none, none, .time 1709990000001, .missing⟩]) ∧
    referenceGroups (postDayLabel (fixedZone 0) 1710000000000)
        [⟨1, 7, none, none, none, none, none, .missing, .time 1709990000000⟩,
          ⟨2, 1, none, none, none, none, none, .time 1709000000000, .time 1709990000000⟩,
          ⟨3, 1, none, none, none, none, none, .time 1709990000001, .missing⟩] =
      [("Today",
          [⟨1, 7, none, none, none, none, none, .missing, .time 1709990000000⟩,
            ⟨3, 1, none, none, none, none, none, .time 1709990000001, .missing⟩]),
        ("Tuesday, February 27, 2024",
          [⟨2, 1, none, none, none, none, none, .time 1709000000000,
            .time 1709990000000⟩])] :=
  ⟨(dayGrouping_refines_reference (fixedZone 0) 1710000000000).1 _, by decide⟩

set_option maxRecDepth 20000

/-! ### Escaping in the renderers -/

/-- C4, at a profile whose `type` is `<script>`, a post whose category is
`<i>` and a profile whose name starts with `<`: `loadProfiles` inserts the
type as it is, in the `class` attribute and in the element text;
`loadPosts` inserts the category unescaped in the `class` attribute, where
the element text beside it is escaped; and `loadPosts` inserts the first
character of the author name unescaped in the avatar. -/
theorem unescaped_type_and_category :
    "<span class=\"profile-type <script>\"><script></span>".data <:+:
      (loadProfiles (fixedZone 0)
        (some [⟨1, some "Ann", some "https://x", "<script>", .time 0⟩])).data ∧
    "<span class=\"post-category <i>\">&lt;i&gt;</span>".data <:+:
      (loadPosts (fixedZone 0) 0
        (some [⟨1, 1, none, none, some "<i>", none, none, .missing, .time 0⟩])
        (some [⟨1, some "Ann", none, "person", .time 0⟩])).data ∧
    "<span class=\"post-author-avatar\"><</span>".data <:+:
      (loadPosts (fixedZone 0) 0
        (some [⟨1, 1, none, none, none, none, none, .missing, .time 0⟩])
        (some [⟨1, some "<Ann", none, "person", .time 0⟩])).data := by
  refine ⟨?_, ?_, ?_⟩ <;> decide

/-! ### formatNotifBody -/

/-- C6 as stated fails at a URL of another site whose query holds the text
`linkedin.com`: the link text is "View Post" although the host is
`example.com`. -/
theorem formatNotifBody_foreign_host :
    formatNotifBody (some "https://example.com/?ref=linkedin.com") =
      "<a href=\"https://example.com/?ref=linkedin.com\" target=\"_blank\" class=\"notif-link\">View Post</a>" ∧
    urlHost "https://example.com/?ref=linkedin.com" = "example.com" ∧
    isLinkedInHost (urlHost "https://example.com/?ref=linkedin.com") = false := by
  refine ⟨?_, ?_, ?_⟩ <;> decide

theorem includesChars_of_infix (needle hay : List Char) (h : needle <:+: hay) :
    includesChars needle hay = true := by
  obtain ⟨s, t, rfl⟩ := h
  induction s with
  | nil =>
    cases hn : needle ++ t with
    | nil =>
      obtain ⟨h1, h2⟩ := List.append_eq_nil.mp hn
      subst h1
      subst h2
      rfl
    | cons c cs =>
      have hp : needle.isPrefixOf (c :: cs) = true := by
        rw [List.isPrefixOf_iff_prefix, ← hn]
        exact List.prefix_append _ _
      simp [hn, includesChars, hp]
  | cons a s ih =>
    simp only [List.cons_append, includesChars, Bool.or_eq_true]
    exact Or.inr (by simpa using ih)

theorem matchScheme_startsWith (scheme l url rest : List Char)
    (h : matchScheme scheme l = some (url, rest)) : scheme.isPrefixOf url = true := by
  simp only [matchScheme] at h
  split_ifs at h with h1 h2
  simp only [Option.some.injEq, Prod.mk.injEq] at h
  rw [← h.1, List.isPrefixOf_iff_prefix]
  exact List.prefix_append _ _

theorem matchUrl_startsWithScheme (l url rest : List Char)
    (h : matchUrl l = some (url, rest)) : startsWithScheme url = true := by
  unfold matchUrl at h
  unfold startsWithScheme
  cases hs : matchScheme "https://".data l with
  | some m =>
    rw [hs] at h
    simp only [Option.some.injEq] at h
    subst h
    rw [matchScheme_startsWith _ _ _ _ hs]
    rfl
  | none =>
    rw [hs] at h
    rw [matchScheme_startsWith _ _ _ _ h]
    exact Bool.or_true _

theorem infix_of_includesChars (needle hay : List Char)
    (h : includesChars needle hay = true) : needle <:+: hay := by
  induction hay with
  | nil =>
    have : needle = [] := by simpa [includesChars] using h
    subst this
    exact List.infix_refl _
  | cons c cs ih =>
    simp only [includesChars, Bool.or_eq_true] at h
    rcases h with h | h
    · exact (List.isPrefixOf_iff_prefix.mp h).isInfix
    · exact (ih h).trans (List.suffix_cons c cs).isInfix

theorem includesChars_iff_contained (needle hay : List Char) :
    includesChars needle hay = true ↔ needle <:+: hay :=
  ⟨infix_of_includesChars needle hay, includesChars_of_infix needle hay⟩

theorem matchScheme_iff (scheme l url after : List Char) :
    matchScheme scheme l = some (url, after) ↔
      ∃ run, l = scheme ++ run ++ after ∧ url = scheme ++ run ∧ run ≠ [] ∧
        (∀ c ∈ run, isSpace c = false) ∧ (∀ c ∈ after.head?, isSpace c = true) := by
  constructor
  · intro h
    simp only [matchScheme] at h
    split_ifs at h with h1 h2
    simp only [Option.some.injEq, Prod.mk.injEq] at h
    obtain ⟨tl, rfl⟩ := List.isPrefixOf_iff_prefix.mp h1
    rw [List.drop_left] at h h2
    refine ⟨tl.takeWhile (fun c => !isSpace c), ?_, h.1.symm, ?_, ?_, ?_⟩
    · rw [← h.2, List.append_assoc, List.takeWhile_append_dropWhile]
    · intro hnil
      exact h2 (by simp [hnil])
    · intro c hc
      have := List.mem_takeWhile_imp hc
      simpa using this
    · intro c hc
      rw [← h.2] at hc
      have := List.head?_dropWhile_not (fun c => !isSpace c) tl
      rw [Option.mem_def.mp hc] at this
      simpa using this
  · rintro ⟨run, rfl, rfl, hne, hrun, hafter⟩
    have hp : ∀ a ∈ run, (fun c => !isSpace c) a = true := by
      intro a ha
      simp [hrun a ha]
    have htw : (after.takeWhile (fun c => !isSpace c)) = [] := by
      cases after with
      | nil => rfl
      | cons a as =>
        have := hafter a (by simp)
        simp [this]
    have hdw : (after.dropWhile (fun c => !isSpace c)) = after := by
      cases after with
      | nil => rfl
      | cons a as =>
        have := hafter a (by simp)
        simp [this]
    simp only [matchScheme]
    rw [if_pos (by rw [List.isPrefixOf_iff_prefix, List.append_assoc]; exact List.prefix_append _ _)]
    rw [List.append_assoc, List.drop_left, List.takeWhile_append_of_pos hp,
      List.dropWhile_append_of_pos hp, htw, hdw, List.append_nil]
    rw [if_neg (by simpa using hne)]

theorem matchScheme_https_none_of_http (run after : List Char) :
    matchScheme "https://".data ("http://".data ++ run ++ after) = none := by
  simp [matchScheme, List.isPrefixOf]

theorem matchUrl_iff (l url after : List Char) :
    matchUrl l = some (url, after) ↔ l = url ++ after ∧ UrlMatch url after := by
  unfold matchUrl UrlMatch
  constructor
  · intro h
    cases hs : matchScheme "https://".data l with
    | some m =>
      rw [hs] at h
      simp only [Option.some.injEq] at h
      subst h
      obtain ⟨run, hl, hu, hne, hrun, hafter⟩ := (matchScheme_iff _ _ _ _).mp hs
      exact ⟨by rw [hl, hu], run, Or.inl hu, hne, hrun, hafter⟩
    | none =>
      rw [hs] at h
      obtain ⟨run, hl, hu, hne, hrun, hafter⟩ := (matchScheme_iff _ _ _ _).mp h
      exact ⟨by rw [hl, hu], run, Or.inr hu, hne, hrun, hafter⟩
  · rintro ⟨rfl, run, hu | hu, hne, hrun, hafter⟩
    · rw [(matchScheme_iff _ _ _ _).mpr ⟨run, by rw [hu], hu, hne, hrun, hafter⟩]
    · subst hu
      rw [matchScheme_https_none_of_http]
      exact (matchScheme_iff _ _ _ _).mpr ⟨run, rfl, rfl, hne, hrun, hafter⟩

theorem matchUrl_after_length (l url after : List Char)
    (h : matchUrl l = some (url, after)) : after.length < l.length := by
  obtain ⟨rfl, run, hu, -⟩ := (matchUrl_iff _ _ _).mp h
  rcases hu with rfl | rfl <;> (simp; omega)

theorem consHead_consHead (a b : List Char) (parts : List (List Char)) :
    consHead a (consHead b parts) = consHead (a ++ b) parts := by
  cases parts <;> simp [consHead]

theorem splitUrlsAux_acc (fuel : Nat) (cur l : List Char) :
    splitUrlsAux fuel cur l = consHead cur (splitUrlsAux fuel [] l) := by
  induction fuel generalizing cur l with
  | zero => simp [splitUrlsAux, consHead]
  | succ n ih =>
    cases l with
    | nil => simp [splitUrlsAux, consHead]
    | cons c rest =>
      simp only [splitUrlsAux]
      cases hm : matchUrl (c :: rest) with
      | some m =>
        obtain ⟨url, after⟩ := m
        simp [consHead]
      | none =>
        simp only [List.nil_append]
        rw [ih (cur ++ [c]) rest, ih [c] rest, consHead_consHead]

theorem splitUrlsAux_fuel (fuel1 fuel2 : Nat) (cur l : List Char)
    (h1 : l.length ≤ fuel1) (h2 : l.length ≤ fuel2) :
    splitUrlsAux fuel1 cur l = splitUrlsAux fuel2 cur l := by
  induction fuel1 generalizing fuel2 cur l with
  | zero =>
    have : l = [] := List.eq_nil_of_length_eq_zero (by omega)
    subst this
    cases fuel2 <;> simp [splitUrlsAux]
  | succ n ih =>
    cases l with
    | nil => cases fuel2 <;> simp [splitUrlsAux]
    | cons c rest =>
      cases fuel2 with
      | zero => simp at h2
      | succ m =>
        simp only [splitUrlsAux]
        cases hm : matchUrl (c :: rest) with
        | some p =>
          obtain ⟨url, after⟩ := p
          have hlt := matchUrl_after_length _ _ _ hm
          simp only
          rw [ih m [] after (by simp at h1 hlt; omega) (by simp at h2 hlt; omega)]
        | none =>
          simp only
          exact ih m _ rest (by simpa using h1) (by simpa using h2)

theorem splitUrls_nil : splitUrls [] = [[]] := rfl

theorem splitUrls_match (l url after : List Char) (h : matchUrl l = some (url, after)) :
    splitUrls l = [] :: url :: splitUrls after := by
  have hlt := matchUrl_after_length _ _ _ h
  cases l with
  | nil => simp at hlt
  | cons c rest =>
    unfold splitUrls
    show splitUrlsAux (rest.length + 1) [] (c :: rest) = _
    simp only [splitUrlsAux, h]
    rw [splitUrlsAux_fuel rest.length after.length [] after (by simp at hlt; omega)
      (le_refl _)]

theorem splitUrls_no_match (c : Char) (rest : List Char) (h : matchUrl (c :: rest) = none) :
    splitUrls (c :: rest) = consHead [c] (splitUrls rest) := by
  unfold splitUrls
  show splitUrlsAux (rest.length + 1) [] (c :: rest) = _
  simp only [splitUrlsAux, h, List.nil_append]
  exact splitUrlsAux_acc _ _ _

theorem matchUrl_none_of_noUrl (tail rest : List Char)
    (h : ∀ url after, tail ++ rest = url ++ after → ¬ UrlMatch url after) :
    matchUrl (tail ++ rest) = none := by
  cases hm : matchUrl (tail ++ rest) with
  | none => rfl
  | some m =>
    obtain ⟨url, after⟩ := m
    obtain ⟨hl, hu⟩ := (matchUrl_iff _ _ _).mp hm
    exact absurd hu (h url after hl)

theorem splitUrls_text (text rest : List Char) (h : NoUrlStartsIn text rest) :
    splitUrls (text ++ rest) = consHead text (splitUrls rest) := by
  induction text with
  | nil =>
    cases hr : splitUrls rest with
    | nil =>
      exfalso
      cases rest with
      | nil => simp [splitUrls_nil] at hr
      | cons c r =>
        cases hm : matchUrl (c :: r) with
        | some m => rw [splitUrls_match _ m.1 m.2 hm] at hr; simp at hr
        | none =>
          rw [splitUrls_no_match _ _ hm] at hr
          cases hs : splitUrls r <;> simp [hs, consHead] at hr
    | cons p ps => simp [consHead, hr]
  | cons c t ih =>
    have hnone : matchUrl (c :: t ++ rest) = none :=
      matchUrl_none_of_noUrl (c :: t) rest (h [] (c :: t) rfl (by simp))
    have ht : NoUrlStartsIn t rest := by
      intro before tail hbt hne
      exact h (c :: before) tail (by rw [hbt]; rfl) hne
    show splitUrls (c :: (t ++ rest)) = _
    rw [splitUrls_no_match c (t ++ rest) hnone, ih ht, consHead_consHead]
    rfl

theorem renderPart_eq (part : List Char) :
    renderPart part = if startsWithScheme part = true then linkMarkup part else part := by
  unfold renderPart linkMarkup linkText
  by_cases hs : startsWithScheme part = true
  · rw [if_pos hs, if_pos hs]
    by_cases hi : "linkedin.com".data <:+: part
    · rw [if_pos hi, if_pos ((includesChars_iff_contained _ _).mpr hi)]
    · rw [if_neg hi, if_neg (fun h => hi ((includesChars_iff_contained _ _).mp h))]
  · rw [if_neg hs, if_neg hs]

theorem UrlMatch_startsWithScheme (url after : List Char) (h : UrlMatch url after) :
    startsWithScheme url = true :=
  matchUrl_startsWithScheme (url ++ after) url after ((matchUrl_iff _ _ _).mpr ⟨rfl, h⟩)

theorem noUrlStartsIn_cons (c : Char) (text rest : List Char)
    (hhead : matchUrl (c :: text ++ rest) = none) (h : NoUrlStartsIn text rest) :
    NoUrlStartsIn (c :: text) rest := by
  intro before tail hbt hne url after hl hm
  cases before with
  | nil =>
    simp only [List.nil_append] at hbt
    subst hbt
    have := (matchUrl_iff _ url after).mpr ⟨hl, hm⟩
    rw [hhead] at this
    exact Option.noConfusion this
  | cons b bs =>
    simp only [List.cons_append, List.cons.injEq] at hbt
    exact h bs tail hbt.2 hne url after hl hm

/-- Every line is a text without a URL, or a text without a URL followed by a
first detected URL and a remainder. -/
theorem line_cases (line : List Char) :
    NoUrlStartsIn line [] ∨
      ∃ text url after, line = text ++ url ++ after ∧
        NoUrlStartsIn text (url ++ after) ∧ UrlMatch url after := by
  induction line with
  | nil =>
    left
    intro before tail hbt hne
    have : tail = [] := (List.append_eq_nil.mp hbt.symm).2
    exact absurd this hne
  | cons c rest ih =>
    cases hm : matchUrl (c :: rest) with
    | some m =>
      obtain ⟨url, after⟩ := m
      obtain ⟨hl, hu⟩ := (matchUrl_iff _ _ _).mp hm
      right
      refine ⟨[], url, after, by simpa using hl, ?_, hu⟩
      intro before tail hbt hne
      have : tail = [] := (List.append_eq_nil.mp hbt.symm).2
      exact absurd this hne
    | none =>
      rcases ih with h | ⟨text, url, after, hl, hno, hu⟩
      · left
        exact noUrlStartsIn_cons c rest [] (by simpa using hm) h
      · right
        refine ⟨c :: text, url, after, by rw [hl]; rfl, ?_, hu⟩
        apply noUrlStartsIn_cons c text (url ++ after) _ hno
        rw [← hm, hl]
        simp

/-- A computable test that implies `NoUrlStartsIn`. -/
theorem noUrlStartsIn_of_tails (text rest : List Char)
    (h : (text.tails.all fun tail => tail.isEmpty || (matchUrl (tail ++ rest)).isNone) = true) :
    NoUrlStartsIn text rest := by
  intro before tail hbt hne url after hl hm
  rw [List.all_eq_true] at h
  have hmem : tail ∈ text.tails := (List.mem_tails _ _).mpr ⟨before, hbt.symm⟩
  have := h tail hmem
  have hemp : tail.isEmpty = false := by
    cases tail with
    | nil => exact absurd rfl hne
    | cons _ _ => rfl
  rw [hemp, Bool.false_or, (matchUrl_iff _ url after).mpr ⟨hl, hm⟩] at this
  exact Bool.noConfusion this

/-- C6, amended: `formatNotifBody` renders each line of the escaped body by
`renderLine`, joined with `<br>`; in a line, every URL that the pattern
detects is replaced by a link whose text is "View Post" when the URL
contains the text `linkedin.com` anywhere and is the URL itself otherwise,
the text in front of it being rendered as one part; every line is of one of
the two shapes; and a URL that contains a host written `linkedin.com` or as
one of its subdomains gets "View Post". -/
theorem formatNotifBody_link_text :
    (∀ body : String, body ≠ "" →
      (formatNotifBody (some body)).data =
        "<br>".data.intercalate
          ((splitLines (escapeHtml (some body)).data).map renderLine)) ∧
    (∀ text : List Char, NoUrlStartsIn text [] → renderLine text = renderPart text) ∧
    (∀ text url after : List Char,
      NoUrlStartsIn text (url ++ after) → UrlMatch url after →
        renderLine (text ++ url ++ after) =
          renderPart text ++ linkMarkup url ++ renderLine after) ∧
    (∀ line : List Char,
      NoUrlStartsIn line [] ∨
        ∃ text url after, line = text ++ url ++ after ∧
          NoUrlStartsIn text (url ++ after) ∧ UrlMatch url after) ∧
    (∀ part : List Char,
      renderPart part = if startsWithScheme part = true then linkMarkup part else part) ∧
    (∀ url : List Char,
      ("linkedin.com".data <:+: url → linkText url = "View Post".data) ∧
      (¬ "linkedin.com".data <:+: url → linkText url = url)) ∧
    (∀ (host : String) (url : List Char),
      isLinkedInHost host = true → host.data <:+: url →
        linkText url = "View Post".data) := by
  refine ⟨?_, ?_, ?_, line_cases, renderPart_eq, ?_, ?_⟩
  · intro body hb
    have hf : falsy (some body) = false := by
      cases body with
      | mk d =>
        cases d with
        | nil => exact absurd rfl hb
        | cons c cs => rfl
    simp only [formatNotifBody, hf, Bool.false_eq_true, if_false]
  · intro text h
    have := splitUrls_text text [] h
    rw [List.append_nil, splitUrls_nil] at this
    unfold renderLine
    rw [this]
    simp [consHead]
  · intro text url after hno hu
    have hm : matchUrl (url ++ after) = some (url, after) :=
      (matchUrl_iff _ _ _).mpr ⟨rfl, hu⟩
    have hs := splitUrls_text text (url ++ after) hno
    rw [splitUrls_match _ _ _ hm] at hs
    unfold renderLine
    rw [List.append_assoc, hs]
    simp only [consHead, List.append_nil, List.map_cons, List.flatten_cons,
      List.append_assoc]
    rw [renderPart_eq url, if_pos (UrlMatch_startsWithScheme url after hu)]
  · intro url
    unfold linkText
    exact ⟨fun h => if_pos h, fun h => if_neg h⟩
  · intro host url hh hin
    unfold linkText
    apply if_pos
    unfold isLinkedInHost at hh
    rw [Bool.or_eq_true] at hh
    rcases hh with e | e
    · have : host = "linkedin.com" := by simpa using e
      subst this
      exact hin
    · rw [List.isSuffixOf_iff_suffix] at e
      obtain ⟨pre, hpre⟩ := e
      have hsub : "linkedin.com".data <:+: host.data :=
        ⟨pre ++ ['.'], [], by rw [← hpre]; simp⟩
      exact hsub.trans hin

/-- Witness of the amended C6: a body of two lines, the first with a URL of
another site whose query holds `linkedin.com`, the second with a URL that
does not contain it. -/
theorem formatNotifBody_link_text_witness :
    (formatNotifBody (some "see https://example.com/?ref=linkedin.com now\nat http://example.org/a")).data =
      "see <a href=\"https://example.com/?ref=linkedin.com\" target=\"_blank\" class=\"notif-link\">View Post</a> now<br>at <a href=\"http://example.org/a\" target=\"_blank\" class=\"notif-link\">http://example.org/a</a>".data ∧
    renderLine ("see ".data ++ "https://example.com/?ref=linkedin.com".data ++ " now".data) =
      "see <a href=\"https://example.com/?ref=linkedin.com\" target=\"_blank\" class=\"notif-link\">View Post</a> now".data ∧
    renderLine ("at ".data ++ "http://example.org/a".data ++ []) =
      "at <a href=\"http://example.org/a\" target=\"_blank\" class=\"notif-link\">http://example.org/a</a>".data :=
  ⟨(formatNotifBody_link_text.1
      "see https://example.com/?ref=linkedin.com now\nat http://example.org/a"
      (by decide)).trans (by decide),
    (formatNotifBody_link_text.2.2.1 "see ".data
      "https://example.com/?ref=linkedin.com".data " now".data
      (noUrlStartsIn_of_tails _ _ (by decide))
      ((matchUrl_iff ("https://example.com/?ref=linkedin.com".data ++ " now".data) _ _).mp
        (by decide)).2).trans (by decide),
    (formatNotifBody_link_text.2.2.1 "at ".data "http://example.org/a".data []
      (noUrlStartsIn_of_tails _ _ (by decide))
      ((matchUrl_iff ("http://example.org/a".data ++ []) _ _).mp (by decide)).2).trans
      (by decide)⟩

/-! ### The post join -/

theorem foldl_set_get?_none (profiles : List Profile) (k : Nat) (m : Dict Nat Profile)
    (hm : m.get? k = none) (h : ∀ p ∈ profiles, p.id ≠ k) :
    (profiles.foldl (fun m p => m.set p.id p) m).get? k = none := by
  induction profiles generalizing m with
  | nil => exact hm
  | cons p rest ih =>
    rw [List.foldl_cons]
    apply ih
    · rw [Dict.get?_set_ne _ _ _ _ (h p (List.mem_cons_self _ _))]
      exact hm
    · exact fun q hq => h q (List.mem_cons_of_mem _ hq)

theorem buildProfileMap_get?_none (profiles : List Profile) (k : Nat)
    (h : ∀ p ∈ profiles, p.id ≠ k) : (buildProfileMap profiles).get? k = none :=
  foldl_set_get?_none profiles k [] rfl h

/-- C7: for every list of profiles and every post whose `profile_id` is the
id of none of them, the resolved name is "Unknown" and the resolved URL is
empty, the avatar shows "U", the author is rendered as the bare text
"Unknown" with no anchor around it, and `loadPosts` on any posts that
include this one produces the rendered groups, not the failure
placeholder. -/
theorem unknown_profile_placeholder (z : TimeZone) (now : Int) (profiles : List Profile)
    (post : Post) (h : ∀ p ∈ profiles, p.id ≠ post.profile_id) :
    profileNameOf (buildProfileMap profiles) post = "Unknown" ∧
    profileUrlOf (buildProfileMap profiles) post = "" ∧
    toUpperCase (charAt0 (profileNameOf (buildProfileMap profiles) post)) = "U" ∧
    authorMarkup (profileNameOf (buildProfileMap profiles) post)
      (profileUrlOf (buildProfileMap profiles) post) = "Unknown" ∧
    (∀ before after : List Post,
      loadPosts z now (some (before ++ post :: after)) (some profiles) =
        joinAll ((referenceGroups (postDayLabel z now) (before ++ post :: after)).map
          (dayGroupMarkup z now (buildProfileMap profiles)))) := by
  have hn : profileNameOf (buildProfileMap profiles) post = "Unknown" := by
    unfold profileNameOf
    rw [buildProfileMap_get?_none profiles _ h]
    rfl
  have hu : profileUrlOf (buildProfileMap profiles) post = "" := by
    unfold profileUrlOf
    rw [buildProfileMap_get?_none profiles _ h]
    rfl
  refine ⟨hn, hu, ?_, ?_, ?_⟩
  · rw [hn]; decide
  · rw [hn, hu]; decide
  · intro before after
    have hg := groupByDay_eq_reference (postDayLabel z now) (before ++ post :: after)
      (fun r _ => formatDayGroup_startsUpper z now _)
    cases hl : before ++ post :: after with
    | nil => simp at hl
    | cons p ps =>
      rw [hl] at hg
      simp only [loadPosts, postGroups, hg]

/-- Witness of C7: one profile with id 1 and a post that refers to
profile 7. -/
theorem unknown_profile_placeholder_witness :
    profileNameOf (buildProfileMap [⟨1, some "Ann", some "https://x", "person", .time 0⟩])
        ⟨1, 7, none, none, none, none, none, .missing, .time 0⟩ = "Unknown" ∧
    authorMarkup
        (profileNameOf (buildProfileMap [⟨1, some "Ann", some "https://x", "person", .time 0⟩])
          ⟨1, 7, none, none, none, none, none, .missing, .time 0⟩)
        (profileUrlOf (buildProfileMap [⟨1, some "Ann", some "https://x", "person", .time 0⟩])
          ⟨1, 7, none, none, none, none, none, .missing, .time 0⟩) = "Unknown" :=
  have h := unknown_profile_placeholder (fixedZone 0) 0
    [⟨1, some "Ann", some "https://x", "person", .time 0⟩]
    ⟨1, 7, none, none, none, none, none, .missing, .time 0⟩ (by decide)
  ⟨h.1, h.2.2.2.1⟩

/-! ### markRead and markAllRead -/

/-- C8 as stated fails on a network failure: the awaited `fetch` rejects,
`markRead` and `markAllRead` end there with a rejected promise, and neither
`loadNotifications` nor `updateNotifBadge` is called. -/
theorem markRead_network_failure_no_reload :
    (markRead 1 .networkFailure).trace = [.request "POST" "/notifications/mark-read/1"] ∧
    (markRead 1 .networkFailure).result = none ∧
    Effect.call "loadNotifications" ∉ (markRead 1 .networkFailure).trace ∧
    Effect.call "updateNotifBadge" ∉ (markRead 1 .networkFailure).trace ∧
    (markAllRead .networkFailure).trace = [.request "POST" "/notifications/mark-all-read"] ∧
    (markAllRead .networkFailure).result = none := by
  refine ⟨?_, ?_, ?_, ?_, ?_, ?_⟩ <;> decide

/-- C8, amended: whenever the POST request is answered, by a success
response or by an HTTP error response, `markRead(id)` and `markAllRead()` go
on to call `loadNotifications` and then `updateNotifBadge`, and complete. -/
theorem markRead_reloads_on_response (id : Nat) (ok : Bool) (body : Option Unit) :
    (markRead id (.response ok body)).trace =
      [.request "POST" ("/notifications/mark-read/" ++ toString id),
        .call "loadNotifications", .call "updateNotifBadge"] ∧
    (markRead id (.response ok body)).result = some () ∧
    (markAllRead (.response ok body)).trace =
      [.request "POST" "/notifications/mark-all-read",
        .call "loadNotifications", .call "updateNotifBadge",
        .setText "toast" "All notifications marked as read",
        .setClass "toast" "toast success show",
        .setTimeout "toast.classList.remove('show')" 3000] ∧
    (markAllRead (.response ok body)).result = some () := by
  refine ⟨?_, ?_, ?_, ?_⟩ <;> rfl

/-! ### uploadCsv -/

/-- C10: in every run of `uploadCsv` that passes the file guard, however the
upload request settles (ok response, non-ok response, network failure,
unparseable body), the handler completes and leaves the submit button
enabled with the label "Upload & Import"; a run with no file selected
performs no write that disables the button, issues no request, and leaves
the button as it was. -/
theorem uploadCsv_button_reenabled (fileCount : Nat) (outcome : FetchOutcome UploadBody)
    (b : Button) :
    (0 < fileCount →
      b.after (uploadCsv fileCount outcome).trace = ⟨false, "Upload & Import"⟩ ∧
      (uploadCsv fileCount outcome).result = some ()) ∧
    (fileCount = 0 →
      (∀ e ∈ (uploadCsv fileCount outcome).trace,
        e ≠ .setDisabled "csv-upload-btn" true ∧ ∀ method url, e ≠ .request method url) ∧
      b.after (uploadCsv fileCount outcome).trace = b) := by
  constructor
  · intro hpos
    obtain ⟨n, rfl⟩ : ∃ n, fileCount = n + 1 := ⟨fileCount - 1, by omega⟩
    cases outcome with
    | networkFailure => exact ⟨rfl, rfl⟩
    | response ok body =>
      cases body with
      | none => cases ok <;> exact ⟨rfl, rfl⟩
      | some data =>
        cases ok with
        | false => exact ⟨rfl, rfl⟩
        | true =>
          obtain ⟨message, added, errors, detail⟩ := data
          cases errors with
          | none => exact ⟨rfl, rfl⟩
          | some es =>
            cases es with
            | nil => exact ⟨rfl, rfl⟩
            | cons e es => exact ⟨rfl, rfl⟩
  · intro h0
    subst h0
    refine ⟨?_, ?_⟩
    · intro e he
      have ht : (uploadCsv 0 outcome).trace =
          [.preventDefault, .setText "toast" "Please select a CSV file",
            .setClass "toast" "toast error show",
            .setTimeout "toast.classList.remove('show')" 3000] := rfl
      rw [ht] at he
      simp only [List.mem_cons, List.mem_singleton, List.not_mem_nil, or_false] at he
      rcases he with rfl | rfl | rfl | rfl <;> simp
    · rfl

/-- Witness of C10: one file selected and the request fails on the network;
no file selected. -/
theorem uploadCsv_button_reenabled_witness :
    Button.after ⟨false, "Upload & Import"⟩ (uploadCsv 1 .networkFailure).trace =
      ⟨false, "Upload & Import"⟩ ∧
    Button.after ⟨false, "Upload & Import"⟩ (uploadCsv 0 .networkFailure).trace =
      ⟨false, "Upload & Import"⟩ :=
  ⟨((uploadCsv_button_reenabled 1 .networkFailure ⟨false, "Upload & Import"⟩).1
      (by decide)).1,
    ((uploadCsv_button_reenabled 0 .networkFailure ⟨false, "Upload & Import"⟩).2 rfl).2⟩

/-! ### updateNotifBadge -/

/-- C11: for every unread count that `updateNotifBadge` fetches, the handler
completes; when the count is 0 the badge ends with display `none`, its text
untouched, and when the count is 1 or more the badge ends with display
`inline-block` and its text is the decimal numeral of exactly that count. -/
theorem updateNotifBadge_visibility (ok : Bool) (count : Nat) (b : Badge) :
    (updateNotifBadge (.response ok (some ⟨count⟩))).result = some () ∧
    (count = 0 →
      b.after (updateNotifBadge (.response ok (some ⟨count⟩))).trace =
        ⟨"none", b.textContent⟩) ∧
    (1 ≤ count →
      b.after (updateNotifBadge (.response ok (some ⟨count⟩))).trace =
        ⟨"inline-block", toString count⟩) := by
  cases count with
  | zero => exact ⟨rfl, fun _ => rfl, fun h => absurd h (by decide)⟩
  | succ n =>
    have run : updateNotifBadge (.response ok (some ⟨n + 1⟩)) =
        ⟨[.request "GET" "/notifications/unread-count",
            .setText "notif-badge" (toString (n + 1)),
            .setDisplay "notif-badge" "inline-block"], some ()⟩ := by
      simp [updateNotifBadge, awaitFetch, awaitJson, tryCatch, emit, Bind.bind, Run.bind,
        Pure.pure]
    rw [run]
    exact ⟨rfl, fun h => absurd h (Nat.succ_ne_zero n), fun _ => rfl⟩

/-- Witness of C11: a hidden badge and the counts 0 and 3. -/
theorem updateNotifBadge_visibility_witness :
    Badge.after ⟨"inline-block", "5"⟩
        (updateNotifBadge (.response true (some ⟨0⟩))).trace = ⟨"none", "5"⟩ ∧
    Badge.after ⟨"none", ""⟩
        (updateNotifBadge (.response true (some ⟨3⟩))).trace = ⟨"inline-block", "3"⟩ :=
  ⟨(updateNotifBadge_visibility true 0 ⟨"inline-block", "5"⟩).2.1 rfl,
    (updateNotifBadge_visibility true 3 ⟨"none", ""⟩).2.2 (by decide)⟩

end Dashboard
